import Mathlib

/-!
Verification of the mk48 naval-combat core against its specification.

This file shallowly embeds the parts of the Rust sources that the claims
refer to:

* `common/src/terrain.rs` — altitude lookup tables, chunk pixel storage,
  run-length compression over a Hilbert walk, terrain mutations;
* `server/src/world_mutation.rs` — mutation priorities and application;
* `server/src/world_physics.rs` — terrain-collision and border handling
  inside the physics tick;
* `client/src/interpolated_contact.rs` — muzzle-flash particle generation;
* `client/src/armament.rs` — best-armament selection;
* `common/src/entity.rs` — entity kinds and turret azimuth checks;
* `common/src/death_reason.rs` — death reasons.

Machine integers are modelled as `Nat`/`Int`; `f32` quantities that the
claims depend on are modelled as `ℚ` (the claims under study are about
control flow and exact integer data, not float rounding).  Types whose
definitions live in repository files that are not part of the provided
sources (`Ticks`, `Angle`, `Velocity`, `Contact`, the server `Entity`
helpers) are modelled from the specification; each such definition carries
a doc comment saying so.
-/

namespace Shipwreck

/-! ### Altitude lookup (common/src/terrain.rs) -/

/-- Embedded `ALTITUDE_LUT` from terrain.rs: terrain data to altitude
(non-linear, to allow both shallow and deep areas).  Entries are the `i8`
values as integers. -/
def ALTITUDE_LUT : List Int :=
  [-128, -115, -100, -50, -20, -5, -2, -1, 0, 1, 2, 5, 20, 50, 100, 115, 127]

/-- Embedded `DATA_OFFSET` from terrain.rs. -/
def DATA_OFFSET : Nat := 6

/-- Models the `u8::saturating_add` used by `lookup_altitude`. -/
def satAddU8 (a b : Nat) : Nat := min (a + b) 255

/-- Models the truncating `as i8` cast at the end of `lookup_altitude`
(two's complement wrap of an `i16` value into `i8` range). -/
def asI8 (v : Int) : Int := (v + 128) % 256 - 128

/-- Embedded `lookup_altitude` from terrain.rs: converts terrain data
(`u8`, modelled as `Nat < 256`) into an altitude (`i8`, modelled as `Int`).
The Rust `i16` division `(high - low) * frac / 16` truncates toward zero;
its operands here are non-negative, so `Int` floor division agrees. -/
def lookup_altitude (data : Nat) : Int :=
  let data := satAddU8 data DATA_OFFSET
  let low := ALTITUDE_LUT.getD (data >>> 4) 0
  let high := ALTITUDE_LUT.getD ((data >>> 4) + 1) 0
  let frac : Int := Int.ofNat (data &&& 15)
  asI8 (low + (high - low) * frac / 16)

/-- Models `<[i8]>::binary_search` on the sorted, duplicate-free
`ALTITUDE_LUT` followed by `map_err(|n| n.saturating_sub(1))` and
`into_ok_or_err()`: on a sorted list without duplicates, `Ok(i)` has `i`
equal to the number of elements below the key, and `Err(n)` has `n` equal
to the insertion point, again the number of elements below the key. -/
def binarySearchFloor (a : Int) : Nat :=
  let n := (ALTITUDE_LUT.filter (fun x => decide (x < a))).length
  if ALTITUDE_LUT.contains a then n else n - 1

/-- Embedded `reverse_lookup_altitude` from terrain.rs: converts an
altitude back into terrain data, returning only multiples of 16
(`saturating_mul(16)` on `u8`). -/
def reverse_lookup_altitude (altitude : Int) : Nat :=
  min (binarySearchFloor altitude * 16) 255

/-! ### Chunk pixel storage (common/src/terrain.rs) -/

/-- Embedded `CHUNK_SIZE` from terrain.rs. -/
def CHUNK_SIZE : Nat := 64

/-- Models terrain.rs `Coord(pub usize, pub usize)`. -/
structure Coord where
  x : Nat
  y : Nat
deriving DecidableEq, Repr

/-- Embedded `Chunk` data from terrain.rs: `[[u8; CHUNK_SIZE / 2]; CHUNK_SIZE]`,
two pixels per byte.  Each byte is a `Nat`; chunks built by the embedded
operations keep every byte below 256 (see `Chunk.Bounded`). -/
structure Chunk where
  data : Fin 64 → Fin 32 → Nat

/-- States that every byte of the chunk is a valid `u8` value. -/
def Chunk.Bounded (c : Chunk) : Prop := ∀ y sx, c.data y sx < 256

instance (c : Chunk) : Decidable c.Bounded := by
  unfold Chunk.Bounded; infer_instance

/-- Embedded `Chunk::zero` from terrain.rs. -/
def Chunk.zero : Chunk := ⟨fun _ _ => 0⟩

/-- Embedded `Chunk::at` from terrain.rs: gets the raw value of one pixel,
specified by coord modulo `CHUNK_SIZE`.
Rust: `(self.data[y][sx] << ((x & 1) * 4)) & 0b11110000` with
`sx = (x / 2) % (CHUNK_SIZE / 2)` and `y %= CHUNK_SIZE`. -/
def Chunk.at (c : Chunk) (p : Coord) : Nat :=
  let sx : Fin 32 := ⟨(p.x / 2) % 32, Nat.mod_lt _ (by decide)⟩
  let y : Fin 64 := ⟨p.y % 64, Nat.mod_lt _ (by decide)⟩
  (c.data y sx <<< ((p.x % 2) * 4)) &&& 0b11110000

/-- Embedded `Chunk::set` from terrain.rs: sets the raw value of one pixel,
specified by coord modulo `CHUNK_SIZE`.
Rust: `self.data[y][sx] = (self.data[y][sx] & (0b1111 << shift)) |
((value & 0b11110000) >> shift)` with `shift = (x & 1) * 4`.  The `u8`
operations cannot overflow, so no wrap is inserted. -/
def Chunk.set (c : Chunk) (p : Coord) (value : Nat) : Chunk :=
  let sx : Fin 32 := ⟨(p.x / 2) % 32, Nat.mod_lt _ (by decide)⟩
  let y : Fin 64 := ⟨p.y % 64, Nat.mod_lt _ (by decide)⟩
  let shift := (p.x % 2) * 4
  ⟨fun j i =>
    if j = y ∧ i = sx then
      (c.data j i &&& (0b1111 <<< shift)) ||| ((value &&& 0b11110000) >>> shift)
    else c.data j i⟩

/-- Asserts that two coordinates denote the same stored pixel: `at` and
`set` read coordinates modulo `CHUNK_SIZE = 64` in both axes. -/
def samePixel (p q : Coord) : Prop := p.x % 64 = q.x % 64 ∧ p.y % 64 = q.y % 64

instance (p q : Coord) : Decidable (samePixel p q) := by
  unfold samePixel; infer_instance

/-! Bit-level facts about the nibble packing used by `Chunk.at` / `Chunk.set`. -/

lemma mask15_eq : (15 : Nat) = 2 ^ 4 - 1 := by decide

lemma mask240_eq : (240 : Nat) = (2 ^ 4 - 1) <<< 4 := by decide

/-- Reading back the even pixel (high nibble) after writing it. -/
lemma writeRead_even (d v : Nat) :
    ((d &&& 15) ||| (v &&& 240)) &&& 240 = v &&& 240 := by
  apply Nat.eq_of_testBit_eq
  intro i
  simp only [mask15_eq, mask240_eq, Nat.testBit_and, Nat.testBit_or, Nat.testBit_shiftLeft,
    Nat.testBit_two_pow_sub_one, Nat.testBit_shiftRight]
  rcases Nat.lt_or_ge i 4 with h | h
  · simp [show ¬(4 ≤ i) from by omega]
  · rcases Nat.lt_or_ge i 8 with h8 | h8
    · simp [show (4 ≤ i) from h, show ¬(i < 4) from by omega, show (i - 4 < 4) from by omega]
    · simp [show (4 ≤ i) from h, show ¬(i < 4) from by omega, show ¬(i - 4 < 4) from by omega]

/-- Reading back the odd pixel (low nibble) after writing it. -/
lemma writeRead_odd (d v : Nat) :
    (((d &&& 240) ||| ((v &&& 240) >>> 4)) <<< 4) &&& 240 = v &&& 240 := by
  apply Nat.eq_of_testBit_eq
  intro i
  simp only [mask15_eq, mask240_eq, Nat.testBit_and, Nat.testBit_or, Nat.testBit_shiftLeft,
    Nat.testBit_two_pow_sub_one, Nat.testBit_shiftRight]
  rcases Nat.lt_or_ge i 4 with h | h
  · simp [show ¬(4 ≤ i) from by omega]
  · rcases Nat.lt_or_ge i 8 with h8 | h8
    · simp [show (4 ≤ i) from h, show ¬(i < 4) from by omega, show (i - 4 < 4) from by omega,
        show 4 + (i - 4) = i from by omega]
    · simp [show (4 ≤ i) from h, show ¬(i - 4 < 4) from by omega]

/-- Writing the even pixel leaves the odd pixel of the same byte unchanged. -/
lemma writeEven_readOdd (d v : Nat) :
    (((d &&& 15) ||| (v &&& 240)) <<< 4) &&& 240 = (d <<< 4) &&& 240 := by
  apply Nat.eq_of_testBit_eq
  intro i
  simp only [mask15_eq, mask240_eq, Nat.testBit_and, Nat.testBit_or, Nat.testBit_shiftLeft,
    Nat.testBit_two_pow_sub_one, Nat.testBit_shiftRight]
  rcases Nat.lt_or_ge i 4 with h | h
  · simp [show ¬(4 ≤ i) from by omega]
  · rcases Nat.lt_or_ge i 8 with h8 | h8
    · simp [show (4 ≤ i) from h, show (i - 4 < 4) from by omega]
    · simp [show (4 ≤ i) from h, show ¬(i - 4 < 4) from by omega]

/-- Writing the odd pixel leaves the even pixel of the same byte unchanged. -/
lemma writeOdd_readEven (d v : Nat) :
    ((d &&& 240) ||| ((v &&& 240) >>> 4)) &&& 240 = d &&& 240 := by
  apply Nat.eq_of_testBit_eq
  intro i
  simp only [mask15_eq, mask240_eq, Nat.testBit_and, Nat.testBit_or, Nat.testBit_shiftLeft,
    Nat.testBit_two_pow_sub_one, Nat.testBit_shiftRight]
  rcases Nat.lt_or_ge i 4 with h | h
  · simp [show ¬(4 ≤ i) from by omega]
  · rcases Nat.lt_or_ge i 8 with h8 | h8
    · simp [show (4 ≤ i) from h, show ¬(i < 4) from by omega, show (i - 4 < 4) from by omega]
    · simp [show (4 ≤ i) from h, show ¬(i < 4) from by omega, show ¬(i - 4 < 4) from by omega]

/-- Bytes produced by a `Chunk.set` write stay below 256, for the shifts
that actually occur (0 and 4). -/
lemma write_lt_256 (d v : Nat) (shift : Nat) (hs : shift ≤ 4) :
    (d &&& (15 <<< shift)) ||| ((v &&& 240) >>> shift) < 256 := by
  have h1 : d &&& (15 <<< shift) < 2 ^ 8 := by
    refine lt_of_le_of_lt Nat.and_le_right ?_
    rw [Nat.shiftLeft_eq]
    calc 15 * 2 ^ shift ≤ 15 * 2 ^ 4 := by
          exact Nat.mul_le_mul_left _ (Nat.pow_le_pow_right (by omega) hs)
      _ < 2 ^ 8 := by norm_num
  have h2 : (v &&& 240) >>> shift < 2 ^ 8 := by
    rw [Nat.shiftRight_eq_div_pow]
    refine lt_of_le_of_lt (Nat.div_le_self _ _) ?_
    exact lt_of_le_of_lt Nat.and_le_right (by norm_num)
  exact lt_of_lt_of_le (Nat.or_lt_two_pow h1 h2) (by norm_num)

/-- Masking with 240 is idempotent. -/
lemma and240_idem (x : Nat) : (x &&& 240) &&& 240 = x &&& 240 := by
  rw [Nat.land_assoc]; norm_num

/-- Reading a pixel right after setting it returns the written value's high
nibble, whatever the byte previously held. -/
lemma at_set_same (c : Chunk) (p : Coord) (v : Nat) :
    (c.set p v).at p = v &&& 240 := by
  simp only [Chunk.set, Chunk.at, if_pos (And.intro rfl rfl)]
  rcases Nat.mod_two_eq_zero_or_one p.x with h | h
  · simpa [h] using writeRead_even (c.data _ _) v
  · simpa [h] using writeRead_odd (c.data _ _) v

/-- Setting one pixel leaves every other pixel of the chunk unchanged,
including the one packed into the same byte. -/
lemma at_set_other (c : Chunk) (p q : Coord) (v : Nat) (h : ¬ samePixel p q) :
    (c.set p v).at q = c.at q := by
  simp only [Chunk.set, Chunk.at]
  by_cases hbyte :
      (⟨q.y % 64, Nat.mod_lt _ (by decide)⟩ : Fin 64) = ⟨p.y % 64, Nat.mod_lt _ (by decide)⟩ ∧
      (⟨(q.x / 2) % 32, Nat.mod_lt _ (by decide)⟩ : Fin 32) = ⟨(p.x / 2) % 32, Nat.mod_lt _ (by decide)⟩
  · rw [if_pos hbyte]
    obtain ⟨hy, hx⟩ := hbyte
    have hy' : q.y % 64 = p.y % 64 := congrArg Fin.val hy
    have hx' : (q.x / 2) % 32 = (p.x / 2) % 32 := congrArg Fin.val hx
    have hpar : p.x % 2 ≠ q.x % 2 := by
      intro hp
      exact h ⟨by omega, hy'.symm⟩
    rcases Nat.mod_two_eq_zero_or_one p.x with hp | hp <;>
      rcases Nat.mod_two_eq_zero_or_one q.x with hq | hq
    · exact absurd (hp.trans hq.symm) hpar
    · have := writeEven_readOdd (c.data ⟨p.y % 64, Nat.mod_lt _ (by decide)⟩
        ⟨(p.x / 2) % 32, Nat.mod_lt _ (by decide)⟩) v
      simp only [hy', hx', hp, hq] at *
      simpa using this
    · have := writeOdd_readEven (c.data ⟨p.y % 64, Nat.mod_lt _ (by decide)⟩
        ⟨(p.x / 2) % 32, Nat.mod_lt _ (by decide)⟩) v
      simp only [hy', hx', hp, hq] at *
      simpa using this
    · exact absurd (hp.trans hq.symm) hpar
  · rw [if_neg hbyte]

/-- Pixel reads interpret the coordinate modulo `CHUNK_SIZE` in both axes. -/
lemma at_mod (c : Chunk) (p : Coord) :
    c.at p = c.at ⟨p.x % 64, p.y % 64⟩ := by
  simp only [Chunk.at]
  have h1 : p.x % 64 / 2 % 32 = p.x / 2 % 32 := by omega
  have h2 : p.y % 64 % 64 = p.y % 64 := by omega
  have h3 : p.x % 64 % 2 = p.x % 2 := by omega
  simp [h1, h2, h3]

/-- Pixel writes interpret the coordinate modulo `CHUNK_SIZE` in both axes. -/
lemma set_mod (c : Chunk) (p : Coord) (v : Nat) :
    c.set p v = c.set ⟨p.x % 64, p.y % 64⟩ v := by
  simp only [Chunk.set]
  have h1 : p.x % 64 / 2 % 32 = p.x / 2 % 32 := by omega
  have h2 : p.y % 64 % 64 = p.y % 64 := by omega
  have h3 : p.x % 64 % 2 = p.x % 2 := by omega
  simp [h1, h2, h3]

/-- Writes preserve the byte bound. -/
lemma bounded_set (c : Chunk) (p : Coord) (v : Nat) (h : c.Bounded) :
    (c.set p v).Bounded := by
  intro y sx
  simp only [Chunk.set]
  split
  · exact write_lt_256 _ _ _ (by omega)
  · exact h y sx

/-- C10.  Chunk pixel store/load and frame property: after
`Chunk::set(coord, v)` for a byte value `v`, `Chunk::at(coord)` returns
exactly `v & 0xF0` (only the high nibble is stored); every other pixel of
the chunk — including the pixel packed in the same underlying byte — is
unchanged; and both `at` and `set` interpret coordinates modulo
`CHUNK_SIZE = 64`, so every `Coord` aliases to some in-chunk pixel. -/
theorem chunk_store_load_frame (c : Chunk) (p q : Coord) (v : Nat) :
    (c.set p v).at p = v &&& 0xF0 ∧
    (¬ samePixel p q → (c.set p v).at q = c.at q) ∧
    c.at p = c.at ⟨p.x % 64, p.y % 64⟩ ∧
    c.set p v = c.set ⟨p.x % 64, p.y % 64⟩ v :=
  ⟨at_set_same c p v, at_set_other c p q v, at_mod c p, set_mod c p v⟩

/-- C10 witness. Concrete instance: setting pixel (2,3) of the zero chunk
to 0x7c stores 0x70, does not disturb pixel (3,3) packed in the same byte,
and coordinate (66,67) aliases pixel (2,3). -/
theorem chunk_store_load_frame_witness :
    (Chunk.zero.set ⟨2, 3⟩ 0x7c).at ⟨2, 3⟩ = 0x70 ∧
    (Chunk.zero.set ⟨2, 3⟩ 0x7c).at ⟨3, 3⟩ = Chunk.zero.at ⟨3, 3⟩ ∧
    Chunk.zero.at ⟨66, 67⟩ = Chunk.zero.at ⟨66 % 64, 67 % 64⟩ := by
  obtain ⟨h1, h2, _, _⟩ := chunk_store_load_frame Chunk.zero ⟨2, 3⟩ ⟨3, 3⟩ 0x7c
  refine ⟨h1.trans (by decide), h2 (by decide), ?_⟩
  exact (chunk_store_load_frame Chunk.zero ⟨66, 67⟩ ⟨0, 0⟩ 0).2.2.1

set_option maxRecDepth 4000 in
/-- C6.  Altitude round-trip: for every raw byte `r` in `0..=255`,
`reverse_lookup_altitude(lookup_altitude(r)) >> 4` equals
`r.saturating_add(DATA_OFFSET) >> 4`, where `DATA_OFFSET = 6`. -/
theorem altitude_roundtrip (r : Nat) (h : r < 256) :
    reverse_lookup_altitude (lookup_altitude r) >>> 4 = satAddU8 r DATA_OFFSET >>> 4 := by
  revert r
  have : ∀ r < 256,
      reverse_lookup_altitude (lookup_altitude r) >>> 4 = satAddU8 r DATA_OFFSET >>> 4 := by
    decide
  exact this

/-- C6 witness at `r = 200`. -/
theorem altitude_roundtrip_witness :
    reverse_lookup_altitude (lookup_altitude 200) >>> 4 = satAddU8 200 DATA_OFFSET >>> 4 :=
  altitude_roundtrip 200 (by decide)

/-! ### Run-length compression over the Hilbert walk (common/src/terrain.rs) -/

/-- Embedded `Compressor::write_byte` from terrain.rs.  The buffer is the
`Vec<u8>` with its last element at the end of the list; `MAX_COUNT = 16`.
Rust: if the last tuple has the same nibble and `count_minus_one <
MAX_COUNT - 1`, increment it, else push `next << 4`. -/
def write_byte (buf : List Nat) (b : Nat) : List Nat :=
  match buf.getLast? with
  | some tuple =>
      if b >>> 4 = tuple >>> 4 ∧ tuple % 16 < 15 then buf.dropLast ++ [tuple + 1]
      else buf ++ [(b >>> 4) <<< 4]
  | none => buf ++ [(b >>> 4) <<< 4]

/-- Models `Compressor::new` + the `write_byte` loop + `into_vec`:
compressing a stream of bytes is a left fold of `write_byte` over the
empty buffer. -/
def compress (l : List Nat) : List Nat := l.foldl write_byte []

/-- Models the `Decompressor` iterator from terrain.rs: for each stored
tuple it emits `tuple & 0b11110000` exactly `tuple % MAX_COUNT + 1` times
(`repeat` counts from 0 up to `count_minus_one`, then the offset moves to
the next tuple). -/
def decompress : List Nat → List Nat
  | [] => []
  | t :: rest => List.replicate (t % 16 + 1) (t &&& 240) ++ decompress rest

/-- Models the quadrant rotation `rot` of the Hilbert curve used by the
`fast_hilbert` crate (the classical order-independent construction):
when `ry = 0`, optionally point-reflect, then swap the axes. -/
def hilbertRot (s x y rx ry : Nat) : Nat × Nat :=
  if ry = 0 then
    if rx = 1 then (s - 1 - y, s - 1 - x) else (y, x)
  else (x, y)

/-- Models the `fast_hilbert::h2xy` main loop: `k` remaining doublings,
current cell size `s`, accumulated coordinates and remaining index `t`. -/
def hilbertD2XYAux : Nat → Nat → Nat → Nat → Nat → Nat × Nat
  | 0, _, x, y, _ => (x, y)
  | Nat.succ k, s, x, y, t =>
      let rx := (t / 2) % 2
      let ry := (t ^^^ rx) % 2
      let p := hilbertRot s x y rx ry
      hilbertD2XYAux k (s * 2) (p.1 + s * rx) (p.2 + s * ry) (t / 4)

/-- Models `fast_hilbert::h2xy` for the `CHUNK_SIZE × CHUNK_SIZE` grid
(order 6): the source builds `HILBERT_TO_COORD[i] = h2xy(i)`. -/
def h2xy (d : Nat) : Coord :=
  let p := hilbertD2XYAux 6 1 0 0 d
  ⟨p.1, p.2⟩

/-- Inverse Hilbert index, used only to certify that the walk visits every
pixel of the 64×64 grid. -/
def hilbertXY2DAux : Nat → Nat → Nat → Nat → Nat → Nat
  | 0, _, _, _, d => d
  | Nat.succ k, s, x, y, d =>
      let rx := if x &&& s ≠ 0 then 1 else 0
      let ry := if y &&& s ≠ 0 then 1 else 0
      let d := d + s * s * ((3 * rx) ^^^ ry)
      let p := hilbertRot 64 x y rx ry
      hilbertXY2DAux k (s / 2) p.1 p.2 d

/-- Inverse of `h2xy` on the 64×64 grid. -/
def xy2d (x y : Nat) : Nat := hilbertXY2DAux 6 32 x y 0

/-- Embedded `HILBERT_TO_COORD` from terrain.rs: the
`CHUNK_SIZE² = 4096`-entry Hilbert-order walk of the chunk. -/
def hilbertWalk : List Coord := (List.range 4096).map h2xy

/-- Embedded `Chunk::to_bytes` from terrain.rs: run-length encodes the
pixels of the chunk in Hilbert order. -/
def Chunk.to_bytes (c : Chunk) : List Nat :=
  compress (hilbertWalk.map fun p => c.at p)

/-- Models the write loop shared by `Chunk::new` and `Chunk::from_bytes`:
sets a list of (coordinate, value) pixels in order. -/
def Chunk.setList (c : Chunk) (l : List (Coord × Nat)) : Chunk :=
  l.foldl (fun ch pv => ch.set pv.1 pv.2) c

/-- Embedded `Chunk::from_bytes` from terrain.rs: decompresses the byte
stream and writes each decoded pixel at the Hilbert coordinate of its
position, starting from `Chunk::zero`. -/
def Chunk.from_bytes (bytes : List Nat) : Chunk :=
  Chunk.setList Chunk.zero (hilbertWalk.zip (decompress bytes))

/-- States that every element of a byte list is a valid `u8`. -/
def AllLt256 (l : List Nat) : Prop := ∀ x ∈ l, x < 256

set_option maxRecDepth 4000 in
lemma incr_tuple_facts : ∀ t < 256, t % 16 < 15 →
    (t + 1) &&& 240 = t &&& 240 ∧ (t + 1) % 16 = t % 16 + 1 ∧ t + 1 < 256 := by decide

set_option maxRecDepth 4000 in
lemma tuple_nibble : ∀ t < 256, t &&& 240 = (t >>> 4) <<< 4 := by decide

set_option maxRecDepth 4000 in
lemma new_tuple_facts : ∀ b < 256,
    ((b >>> 4) <<< 4) % 16 = 0 ∧ ((b >>> 4) <<< 4) &&& 240 = (b >>> 4) <<< 4 ∧
    (b >>> 4) <<< 4 < 256 := by decide

lemma decompress_append (a b : List Nat) :
    decompress (a ++ b) = decompress a ++ decompress b := by
  induction a with
  | nil => simp [decompress]
  | cons t rest ih => simp [decompress, ih]

lemma write_byte_of_getLast_none (buf : List Nat) (b : Nat) (h : buf.getLast? = none) :
    write_byte buf b = buf ++ [(b >>> 4) <<< 4] := by
  unfold write_byte; rw [h]

lemma write_byte_of_getLast_some (buf : List Nat) (b t : Nat) (h : buf.getLast? = some t) :
    write_byte buf b =
      if b >>> 4 = t >>> 4 ∧ t % 16 < 15 then buf.dropLast ++ [t + 1]
      else buf ++ [(b >>> 4) <<< 4] := by
  unfold write_byte; rw [h]

lemma write_byte_bounded (buf : List Nat) (b : Nat) (hb : AllLt256 buf) (h : b < 256) :
    AllLt256 (write_byte buf b) := by
  cases hl : buf.getLast? with
  | none =>
    rw [write_byte_of_getLast_none buf b hl]
    intro x hx
    rcases List.mem_append.1 hx with hx | hx
    · exact hb x hx
    · simp only [List.mem_singleton] at hx
      exact hx ▸ (new_tuple_facts b h).2.2
  | some t =>
    have ht : t < 256 := hb t (List.mem_of_getLast?_eq_some hl)
    rw [write_byte_of_getLast_some buf b t hl]
    split
    · rename_i hcond
      intro x hx
      rcases List.mem_append.1 hx with hx | hx
      · exact hb x (List.dropLast_subset _ hx)
      · simp only [List.mem_singleton] at hx
        exact hx ▸ (incr_tuple_facts t ht hcond.2).2.2
    · intro x hx
      rcases List.mem_append.1 hx with hx | hx
      · exact hb x hx
      · simp only [List.mem_singleton] at hx
        exact hx ▸ (new_tuple_facts b h).2.2

/-- Central step of the round-trip: feeding one byte to the compressor
extends the decompressed stream by exactly that byte's high nibble. -/
lemma decompress_write_byte (buf : List Nat) (b : Nat) (hb : AllLt256 buf) (h : b < 256) :
    decompress (write_byte buf b) = decompress buf ++ [(b >>> 4) <<< 4] := by
  cases hl : buf.getLast? with
  | none =>
    have hbuf : buf = [] := List.getLast?_eq_none_iff.1 hl
    rw [write_byte_of_getLast_none buf b hl, hbuf]
    simp [decompress, (new_tuple_facts b h).1, (new_tuple_facts b h).2.1]
  | some t =>
    have ht : t < 256 := hb t (List.mem_of_getLast?_eq_some hl)
    have hsplit : buf.dropLast ++ [t] = buf := List.dropLast_append_getLast? t hl
    rw [write_byte_of_getLast_some buf b t hl]
    split
    · rename_i hcond
      obtain ⟨hnib, hcount⟩ := hcond
      obtain ⟨h240, hmod, _⟩ := incr_tuple_facts t ht hcount
      rw [decompress_append]
      conv_rhs => rw [← hsplit, decompress_append]
      simp only [decompress, List.append_nil]
      rw [hmod, h240, List.replicate_succ' (t % 16 + 1)]
      have hnv : t &&& 240 = (b >>> 4) <<< 4 := by
        rw [tuple_nibble t ht, ← hnib]
      simp [hnv, List.append_assoc]
    · rw [decompress_append]
      simp [decompress, (new_tuple_facts b h).1, (new_tuple_facts b h).2.1]

lemma compress_bounded (l : List Nat) (h : AllLt256 l) : AllLt256 (compress l) := by
  induction l using List.reverseRecOn with
  | nil => intro x hx; simp [compress] at hx
  | append_singleton l b ih =>
    have hl : AllLt256 l := fun x hx => h x (List.mem_append_left _ hx)
    have hb : b < 256 := h b (List.mem_append_right _ (List.mem_singleton_self b))
    unfold compress at *
    rw [List.foldl_append]
    exact write_byte_bounded _ _ (ih hl) hb

/-- Decompression is a left inverse of compression on `u8` streams, up to
masking each byte to its high nibble. -/
lemma decompress_compress (l : List Nat) (h : AllLt256 l) :
    decompress (compress l) = l.map (fun b => b &&& 240) := by
  induction l using List.reverseRecOn with
  | nil => simp [compress, decompress]
  | append_singleton l b ih =>
    have hl : AllLt256 l := fun x hx => h x (List.mem_append_left _ hx)
    have hb : b < 256 := h b (List.mem_append_right _ (List.mem_singleton_self b))
    have : compress (l ++ [b]) = write_byte (compress l) b := by
      unfold compress; rw [List.foldl_append]; rfl
    rw [this, decompress_write_byte _ _ (compress_bounded l hl) hb, ih hl,
      List.map_append, ← tuple_nibble b hb]
    rfl

/-! Chunk-level facts used to assemble the compression round trip. -/

lemma at_lt_256 (c : Chunk) (p : Coord) : c.at p < 256 := by
  unfold Chunk.at
  exact lt_of_le_of_lt Nat.and_le_right (by norm_num)

lemma at_masked (c : Chunk) (p : Coord) : c.at p &&& 240 = c.at p := by
  unfold Chunk.at
  exact and240_idem _

lemma at_congr (c : Chunk) (p q : Coord) (h : samePixel p q) : c.at p = c.at q := by
  rw [at_mod c p, at_mod c q]
  obtain ⟨hx, hy⟩ := h
  rw [hx, hy]

lemma at_set_samePixel (c : Chunk) (p q : Coord) (v : Nat) (h : samePixel p q) :
    (c.set p v).at q = v &&& 240 := by
  obtain ⟨hx, hy⟩ := h
  rw [set_mod c p v, at_mod _ q, hx, hy]
  exact at_set_same c _ v

lemma at_setList_of_no_match (c : Chunk) (l : List (Coord × Nat)) (q : Coord)
    (h : ∀ pv ∈ l, ¬ samePixel pv.1 q) :
    (c.setList l).at q = c.at q := by
  induction l generalizing c with
  | nil => rfl
  | cons pv t ih =>
    have hstep : (c.set pv.1 pv.2).at q = c.at q :=
      at_set_other c pv.1 q pv.2 (h pv (List.mem_cons_self pv t))
    calc (Chunk.setList c (pv :: t)).at q
        = ((c.set pv.1 pv.2).setList t).at q := rfl
      _ = (c.set pv.1 pv.2).at q := ih _ (fun x hx => h x (List.mem_cons_of_mem pv hx))
      _ = c.at q := hstep

lemma at_setList_of_match (c : Chunk) (l : List (Coord × Nat)) (q : Coord) (w : Nat)
    (hmem : ∃ pv ∈ l, samePixel pv.1 q)
    (hval : ∀ pv ∈ l, samePixel pv.1 q → pv.2 &&& 240 = w) :
    (c.setList l).at q = w := by
  induction l generalizing c with
  | nil => simp at hmem
  | cons pv t ih =>
    by_cases hex : ∃ x ∈ t, samePixel x.1 q
    · exact ih _ hex (fun x hx hs => hval x (List.mem_cons_of_mem pv hx) hs)
    · have hhead : samePixel pv.1 q := by
        rcases hmem with ⟨x, hx, hs⟩
        rcases List.mem_cons.1 hx with rfl | hx
        · exact hs
        · exact absurd ⟨x, hx, hs⟩ hex
      have hrest : ∀ x ∈ t, ¬ samePixel x.1 q := by
        intro x hx hs; exact hex ⟨x, hx, hs⟩
      calc (Chunk.setList c (pv :: t)).at q
          = ((c.set pv.1 pv.2).setList t).at q := rfl
        _ = (c.set pv.1 pv.2).at q := at_setList_of_no_match _ t q hrest
        _ = pv.2 &&& 240 := at_set_samePixel c pv.1 q pv.2 hhead
        _ = w := hval pv (List.mem_cons_self pv t) hhead

lemma bounded_setList (c : Chunk) (l : List (Coord × Nat)) (h : c.Bounded) :
    (c.setList l).Bounded := by
  induction l generalizing c with
  | nil => exact h
  | cons pv t ih => exact ih _ (bounded_set c pv.1 pv.2 h)

set_option maxRecDepth 8000 in
set_option maxHeartbeats 4000000 in
/-- Certifies that the modelled Hilbert walk hits every pixel of the
64×64 grid: `xy2d` is a right inverse of `h2xy` below 4096. -/
lemma hilbert_covers : ∀ x < 64, ∀ y < 64,
    xy2d x y < 4096 ∧ h2xy (xy2d x y) = ⟨x, y⟩ := by decide

lemma mem_hilbertWalk (x y : Nat) (hx : x < 64) (hy : y < 64) :
    (⟨x, y⟩ : Coord) ∈ hilbertWalk := by
  obtain ⟨hlt, heq⟩ := hilbert_covers x hx y hy
  exact heq ▸ List.mem_map_of_mem h2xy (List.mem_range.2 hlt)

/-- Left-inverse property at the pixel level: `from_bytes` of `to_bytes`
reads back every pixel of the original chunk, with no side condition. -/
lemma roundtrip_at (c : Chunk) (q : Coord) :
    (Chunk.from_bytes c.to_bytes).at q = c.at q := by
  unfold Chunk.from_bytes Chunk.to_bytes
  have hall : AllLt256 (hilbertWalk.map fun p => c.at p) := by
    intro x hx
    rcases List.mem_map.1 hx with ⟨p, _, rfl⟩
    exact at_lt_256 c p
  rw [decompress_compress _ hall, List.map_map]
  have hmask : (hilbertWalk.map ((fun b => b &&& 240) ∘ fun p => c.at p)) =
      hilbertWalk.map fun p => c.at p := by
    apply List.map_congr_left
    intro p _
    exact at_masked c p
  rw [hmask]
  have hzip : ∀ l : List Coord,
      l.zip (l.map fun p => c.at p) = l.map fun p => (p, c.at p) := by
    intro l
    induction l with
    | nil => rfl
    | cons p t ih => simp [ih]
  rw [hzip]
  apply at_setList_of_match
  · refine ⟨(⟨q.x % 64, q.y % 64⟩, c.at ⟨q.x % 64, q.y % 64⟩), ?_, ?_⟩
    · exact List.mem_map_of_mem _ (mem_hilbertWalk _ _ (Nat.mod_lt _ (by decide)) (Nat.mod_lt _ (by decide)))
    · show q.x % 64 % 64 = q.x % 64 ∧ q.y % 64 % 64 = q.y % 64
      exact ⟨by omega, by omega⟩
  · intro pv hpv hs
    rcases List.mem_map.1 hpv with ⟨p, _, rfl⟩
    rw [at_masked, at_congr c p q hs]

set_option maxRecDepth 4000 in
lemma byte_from_pixels : ∀ d < 256, (d &&& 240) ||| (((d <<< 4) &&& 240) >>> 4) = d := by
  decide

lemma zero_bounded : Chunk.zero.Bounded := fun _ _ => by norm_num [Chunk.zero]

/-- Reconstructs a stored byte from the two pixel reads it serves. -/
lemma data_from_at (c : Chunk) (hb : c.Bounded) (j : Fin 64) (i : Fin 32) :
    c.data j i = c.at ⟨2 * i.val, j.val⟩ ||| (c.at ⟨2 * i.val + 1, j.val⟩ >>> 4) := by
  have hi := i.isLt
  have hj := j.isLt
  have h1 : (2 * i.val) / 2 % 32 = i.val := by omega
  have h2 : (2 * i.val + 1) / 2 % 32 = i.val := by omega
  have h3 : (2 * i.val) % 2 = 0 := by omega
  have h4 : (2 * i.val + 1) % 2 = 1 := by omega
  have h5 : j.val % 64 = j.val := by omega
  unfold Chunk.at
  simp only [h1, h2, h3, h4, h5, Nat.zero_mul, Nat.one_mul, Nat.shiftLeft_zero, Fin.eta]
  exact (byte_from_pixels _ (hb j i)).symm

lemma from_bytes_bounded (bytes : List Nat) : (Chunk.from_bytes bytes).Bounded :=
  bounded_setList _ _ zero_bounded

/-- Round trip at the byte level, shared by the compression claims. -/
lemma roundtrip_data (c : Chunk) (hb : c.Bounded) (j : Fin 64) (i : Fin 32) :
    (Chunk.from_bytes c.to_bytes).data j i = c.data j i := by
  rw [data_from_at _ (from_bytes_bounded _) j i, data_from_at c hb j i,
    roundtrip_at, roundtrip_at]

/-- C7.  Chunk compression round-trip: for every chunk (each byte a valid
`u8`, i.e. each pixel an arbitrary high-nibble value), decompressing the
Hilbert-order run-length compression reproduces the pixel data exactly:
`Chunk::from_bytes(c.to_bytes())` has data equal to `c`'s. -/
theorem chunk_compression_roundtrip (c : Chunk) (hb : c.Bounded) :
    ∀ (j : Fin 64) (i : Fin 32), (Chunk.from_bytes c.to_bytes).data j i = c.data j i :=
  fun j i => roundtrip_data c hb j i

/-- C7 witness at the zero chunk. -/
theorem chunk_compression_roundtrip_witness :
    Chunk.Bounded Chunk.zero ∧
    ∀ (j : Fin 64) (i : Fin 32),
      (Chunk.from_bytes Chunk.zero.to_bytes).data j i = Chunk.zero.data j i :=
  ⟨by decide, chunk_compression_roundtrip Chunk.zero (by decide)⟩

/-! ### The constant nibble-7 chunk (claim C8) -/

/-- Chunk whose every pixel is nibble 7: every stored byte is `0x77`
(nibble 7 in the even pixel's high slot and in the odd pixel's low slot). -/
def sevenChunk : Chunk := ⟨fun _ _ => 0x77⟩

lemma sevenChunk_bounded : sevenChunk.Bounded := fun _ _ => by norm_num [sevenChunk]

lemma at_sevenChunk (p : Coord) : sevenChunk.at p = 112 := by
  show (119 <<< ((p.x % 2) * 4)) &&& 240 = 112
  rcases Nat.mod_two_eq_zero_or_one p.x with h | h <;> rw [h] <;> decide

lemma compress_replicate_112 (n : Nat) :
    compress (List.replicate n 112) =
      List.replicate (n / 16) 127 ++ (if n % 16 = 0 then [] else [112 + n % 16 - 1]) := by
  induction n with
  | zero => rfl
  | succ n ih =>
    have hstep : compress (List.replicate (n + 1) 112) =
        write_byte (compress (List.replicate n 112)) 112 := by
      rw [List.replicate_succ']
      unfold compress
      rw [List.foldl_append]
      rfl
    rw [hstep, ih]
    by_cases h0 : n % 16 = 0
    · rw [if_pos h0, List.append_nil]
      rcases Nat.eq_zero_or_pos (n / 16) with hq | hq
      · have hn : n = 0 := by omega
        subst hn
        rw [write_byte_of_getLast_none _ _ (by rfl)]
        rfl
      · have hlast : (List.replicate (n / 16) 127).getLast? = some 127 := by
          cases hq' : n / 16 with
          | zero => omega
          | succ k => rw [List.replicate_succ']; exact List.getLast?_concat _
        rw [write_byte_of_getLast_some _ _ _ hlast, if_neg (by norm_num)]
        have h1 : (n + 1) / 16 = n / 16 := by omega
        have h2 : (n + 1) % 16 = 1 := by omega
        rw [h1, h2, if_neg (by norm_num)]
        congr 1
    · rw [if_neg h0]
      have hlast : (List.replicate (n / 16) 127 ++ [112 + n % 16 - 1]).getLast? =
          some (112 + n % 16 - 1) := List.getLast?_concat _
      rw [write_byte_of_getLast_some _ _ _ hlast]
      have hr1 : 1 ≤ n % 16 := by omega
      have hr15 : n % 16 ≤ 15 := by omega
      have hsh : (112 + n % 16 - 1) >>> 4 = 7 := by
        rw [Nat.shiftRight_eq_div_pow]; omega
      by_cases h15 : n % 16 = 15
      · rw [if_pos ⟨by rw [hsh]; decide, by omega⟩, List.dropLast_concat]
        have h1 : (n + 1) / 16 = n / 16 + 1 := by omega
        have h2 : (n + 1) % 16 = 0 := by omega
        rw [h1, h2, if_pos rfl, List.append_nil, List.replicate_succ']
        congr 1
        simp [h15]
      · rw [if_pos ⟨by rw [hsh]; decide, by omega⟩, List.dropLast_concat]
        have h1 : (n + 1) / 16 = n / 16 := by omega
        have h2 : (n + 1) % 16 = n % 16 + 1 := by omega
        rw [h1, h2, if_neg (by omega)]
        congr 2
        omega

lemma to_bytes_sevenChunk : sevenChunk.to_bytes = List.replicate 256 127 := by
  unfold Chunk.to_bytes
  have hmap : hilbertWalk.map (fun p => sevenChunk.at p) = List.replicate 4096 112 := by
    rw [List.map_congr_left (fun p _ => at_sevenChunk p)]
    have hlen : hilbertWalk.length = 4096 := by
      unfold hilbertWalk; rw [List.length_map, List.length_range]
    rw [List.map_const', hlen]
  rw [hmap, compress_replicate_112]
  norm_num

/-- C8 counterexample: the constant nibble-7 chunk does NOT compress to 256
bytes of `0x77`; its first output byte is `0x7F` (`{nibble 7, count−1 = 15}`). -/
theorem sevenChunk_bytes_ne_0x77 : sevenChunk.to_bytes ≠ List.replicate 256 0x77 := by
  rw [to_bytes_sevenChunk]
  intro h
  have := congrArg List.head? h
  simp [List.head?] at this

/-- C8 (amended).  RLE of a constant chunk: a chunk whose every pixel is
nibble 7 compresses via `to_bytes` to exactly `ceil(4096/16) = 256` bytes,
each byte equal to `0x7F` (nibble 7 together with count−1 = 15), and
decompressing those bytes yields an equal chunk. -/
theorem sevenChunk_rle :
    sevenChunk.to_bytes = List.replicate 256 0x7F ∧
    sevenChunk.to_bytes.length = 256 ∧
    ∀ (j : Fin 64) (i : Fin 32),
      (Chunk.from_bytes sevenChunk.to_bytes).data j i = sevenChunk.data j i :=
  ⟨to_bytes_sevenChunk, by rw [to_bytes_sevenChunk, List.length_replicate],
    fun j i => roundtrip_data sevenChunk sevenChunk_bounded j i⟩

/-! ### Entity kinds (common/src/entity.rs) -/

/-- Embedded `EntityKind` from entity.rs. -/
inductive EntityKind where
  | Aircraft | Boat | Collectible | Decoy | Obstacle | Turret | Weapon
deriving DecidableEq, Repr

/-- Embedded `EntitySubKind` from entity.rs (all 31 values). -/
inductive EntitySubKind where
  | Battleship | Carrier | Corvette | Cruiser | Depositor | DepthCharge
  | Destroyer | Dreadnought | Dredger | Heli | Hovercraft | Icebreaker
  | Gun | Lcs | Mine | Minelayer | Missile | Mtb | Pirate | Plane | Ram
  | Rocket | RocketTorpedo | Sam | Score | Shell | Sonar | Structure
  | Submarine | Tanker | Torpedo | Tree
deriving DecidableEq, Repr

/-- Models `PlayerId` (core_protocol, outside the sources) as a bare
identifier. -/
abbrev PlayerId := Nat

/-- Models `EntityType` as its integer catalog ordinal; the entity catalog
itself is out of scope (an opaque process-lifetime constant per the spec),
so the data a claim needs is passed in explicitly. -/
abbrev EntityTypeId := Nat

/-! ### Death reasons (common/src/death_reason.rs) -/

/-- Embedded `DeathReason` from death_reason.rs (release configuration:
the debug-only string variant is compiled out). -/
inductive DeathReason where
  | Unknown
  | Border
  | Terrain
  | Boat (player : PlayerId)
  | Entity (entityType : EntityTypeId)
  | Ram (player : PlayerId)
  | Weapon (player : PlayerId) (entityType : EntityTypeId)
deriving DecidableEq, Repr

/-- Embedded `DeathReason::is_due_to_player` from death_reason.rs. -/
def DeathReason.is_due_to_player : DeathReason → Bool
  | .Unknown => false
  | .Border => false
  | .Terrain => false
  | .Boat _ => true
  | .Entity _ => false
  | .Ram _ => true
  | .Weapon _ _ => true

/-- Models `Ticks` (common/src/ticks.rs, not among the sources) from the
spec: a tick counter; one tick is nominally 0.1 s. -/
abbrev Ticks := Nat

/-- Models `Ticks::to_secs` from the spec's 0.1 s tick. -/
def ticksToSecs (t : Nat) : ℚ := (t : ℚ) / 10

/-- Models `Ticks::from_secs`: seconds to tick count at 10 ticks/s. -/
def ticksFromSecs (s : ℚ) : Nat := (⌊s * 10⌋).toNat

/-- Models `Velocity::clamp_magnitude` from the spec: clamp a scalar
velocity (m/s) to the given magnitude. -/
def clampMagnitude (v m : ℚ) : ℚ := max (-m) (min v m)

/-! ### Mutations and their priorities (server/src/world_mutation.rs) -/

/-- Embedded `Mutation` from world_mutation.rs.  Player handles are
modelled by `PlayerId`, entity types by their ordinal, `f32` payloads by
`ℚ`, `Vec2` by `ℚ × ℚ`, angles by exact degrees (`ℚ`), altitudes by the
raw `i8` value (`Int`). -/
inductive Mutation where
  | CollidedWithBoat (other_player : PlayerId) (damage : Nat) (impulse : ℚ) (ram : Bool)
  | CollidedWithObstacle (impulse : ℚ) (entity_type : EntityTypeId)
  | ClearSpawnProtection
  | UpgradeHq
  | Score (amount : Nat)
  | Remove (reason : DeathReason)
  | Repair (amount : Nat)
  | Reload (amount : Nat)
  | ReloadLimited (entity_type : EntityTypeId) (instant : Bool)
  | CollectedBy (player : PlayerId) (score : Nat)
  | HitBy (other_player : PlayerId) (weapon_type : EntityTypeId) (damage : Nat)
  | Attraction (delta : ℚ × ℚ) (velocity : ℚ)
  | Guidance (direction_target : ℚ) (altitude_target : Int) (signal_strength : ℚ)
  | FireAll (sub_kind : EntitySubKind)
deriving DecidableEq, Repr

/-- Embedded `Mutation::absolute_priority` from world_mutation.rs. -/
def Mutation.absolute_priority : Mutation → Int
  | .FireAll _ => 127
  | .Remove _ => 126
  | .HitBy _ _ _ => 125
  | .CollidedWithBoat _ _ _ _ => 124
  | .CollectedBy _ _ => 123
  | .Attraction _ _ => 101
  | .Guidance _ _ _ => 100
  | _ => 0

/-- Embedded `Mutation::relative_priority` from world_mutation.rs. -/
def Mutation.relative_priority : Mutation → ℚ
  | .Remove death_reason => if death_reason.is_due_to_player then 1 else 0
  | .Guidance _ _ signal_strength => -signal_strength
  | .HitBy _ _ damage => ticksToSecs damage
  | .CollidedWithBoat _ damage _ _ => ticksToSecs damage
  | .Attraction delta _ => delta.1 * delta.1 + delta.2 * delta.2
  | _ => 0

/-- C3 counterexample: the spec table says `Attraction(Δ, vel)` has
relative priority `−|Δ|²`; the code returns `+|Δ|²`.  At `Δ = (1, 0)` the
code yields `1`, not `−1`. -/
theorem attraction_priority_ne_neg :
    (Mutation.Attraction (1, 0) 5).relative_priority = 1 ∧
    ((1 : ℚ) ≠ -((1 : ℚ) * 1 + 0 * 0)) := by
  constructor
  · norm_num [Mutation.relative_priority]
  · norm_num

/-- C3 (amended).  Mutation priorities equal the spec table except for the
sign of `Attraction`'s relative priority: FireAll 127/0; Remove 126 with
relative 1 if the death reason is due to a player else 0; HitBy 125 with
relative the damage in seconds; CollidedWithBoat 124 with relative the
damage in seconds; CollectedBy 123/0; Attraction 101 with relative `+|Δ|²`
(farthest first, so the closest attraction is applied last and takes
effect); Guidance 100 with relative `−signal_strength`; every other
variant 0/0. -/
theorem mutation_priorities :
    (∀ sk, (Mutation.FireAll sk).absolute_priority = 127 ∧
      (Mutation.FireAll sk).relative_priority = 0) ∧
    (∀ r, (Mutation.Remove r).absolute_priority = 126 ∧
      (Mutation.Remove r).relative_priority = (if r.is_due_to_player then 1 else 0)) ∧
    (∀ p w d, (Mutation.HitBy p w d).absolute_priority = 125 ∧
      (Mutation.HitBy p w d).relative_priority = ticksToSecs d) ∧
    (∀ p d i rm, (Mutation.CollidedWithBoat p d i rm).absolute_priority = 124 ∧
      (Mutation.CollidedWithBoat p d i rm).relative_priority = ticksToSecs d) ∧
    (∀ p s, (Mutation.CollectedBy p s).absolute_priority = 123 ∧
      (Mutation.CollectedBy p s).relative_priority = 0) ∧
    (∀ dl v, (Mutation.Attraction dl v).absolute_priority = 101 ∧
      (Mutation.Attraction dl v).relative_priority = dl.1 * dl.1 + dl.2 * dl.2) ∧
    (∀ dt at_ sg, (Mutation.Guidance dt at_ sg).absolute_priority = 100 ∧
      (Mutation.Guidance dt at_ sg).relative_priority = -sg) ∧
    (∀ i e, (Mutation.CollidedWithObstacle i e).absolute_priority = 0 ∧
      (Mutation.CollidedWithObstacle i e).relative_priority = 0) ∧
    (Mutation.ClearSpawnProtection.absolute_priority = 0 ∧
      Mutation.ClearSpawnProtection.relative_priority = 0) ∧
    (Mutation.UpgradeHq.absolute_priority = 0 ∧
      Mutation.UpgradeHq.relative_priority = 0) ∧
    (∀ n, (Mutation.Score n).absolute_priority = 0 ∧
      (Mutation.Score n).relative_priority = 0) ∧
    (∀ n, (Mutation.Repair n).absolute_priority = 0 ∧
      (Mutation.Repair n).relative_priority = 0) ∧
    (∀ n, (Mutation.Reload n).absolute_priority = 0 ∧
      (Mutation.Reload n).relative_priority = 0) ∧
    (∀ e b, (Mutation.ReloadLimited e b).absolute_priority = 0 ∧
      (Mutation.ReloadLimited e b).relative_priority = 0) := by
  refine ⟨fun sk => ⟨rfl, rfl⟩, fun r => ⟨rfl, rfl⟩, fun p w d => ⟨rfl, rfl⟩,
    fun p d i rm => ⟨rfl, rfl⟩, fun p s => ⟨rfl, rfl⟩, fun dl v => ⟨rfl, rfl⟩,
    fun dt at_ sg => ⟨rfl, rfl⟩, fun i e => ⟨rfl, rfl⟩, ⟨rfl, rfl⟩, ⟨rfl, rfl⟩,
    fun n => ⟨rfl, rfl⟩, fun n => ⟨rfl, rfl⟩, fun n => ⟨rfl, rfl⟩, fun e b => ⟨rfl, rfl⟩⟩

/-! ### Mutation application and processing order (server/src/world_mutation.rs) -/

/-- Modelled from the spec: `Entity::kill_in(delta, t)` (server entity.rs
is not among the sources) schedules the entity to die `t` after the first
call and reports whether the countdown has elapsed. -/
def killIn (countdown : Option Nat) (delta : Nat) (lim : Nat) : Option Nat × Bool :=
  let rem := countdown.getD lim
  if rem ≤ delta then (some 0, true) else (some (rem - delta), false)

/-- Side effects of `Mutation::apply` that act on the world rather than
the targeted entity: score credits, loot drops, limited reloads. -/
inductive MEvent where
  | killCredit (p : PlayerId)
  | ramCredit (p : PlayerId)
  | boatDied (scoreToCoins : Bool)
  | collect (p : PlayerId) (score : Nat)
  | reloadLimited (et : EntityTypeId) (instant : Bool)
deriving DecidableEq, Repr

/-- State of the targeted entity (plus its world-visible effects) as
touched by `Mutation::apply`.  `health` is the remaining damage the entity
can absorb (`Entity::damage` is modelled from the spec as reaching zero
kill); `direction` stores the vector handed to `Angle::from`, which is how
the embedding models the resulting angle; `repairApplied`/`reloadApplied`
count the amounts passed to the spec-modelled `Entity::repair`/`reload`. -/
structure MState where
  removed : Option DeathReason
  health : Nat
  killCountdown : Option Nat
  velocity : ℚ
  direction : ℚ × ℚ
  directionTarget : ℚ
  altitudeTarget : Option Int
  ticks : Nat
  score : Nat
  spawnProtection : Bool
  repairApplied : Nat
  reloadApplied : Nat
  upgradedHq : Bool
  events : List MEvent
  spawned : List EntityTypeId
deriving DecidableEq, Repr

/-- Embedded `Mutation::apply` from world_mutation.rs over `MState`.
`armaments` lists the `(entity_type, sub_kind)` of the target's armament
mounts (for `FireAll`); `isLastOfType` matches the Rust parameter.
Removal is recorded in `removed` instead of a returned boolean. -/
def Mutation.apply (armaments : List (EntityTypeId × EntitySubKind)) (delta : Nat)
    (isLastOfType : Bool) (s : MState) : Mutation → MState
  | .Remove reason => { s with removed := some reason }
  | .HitBy p w d =>
      if s.health ≤ d then
        { s with events := .boatDied false :: .killCredit p :: s.events,
                 removed := some (.Weapon p w) }
      else { s with health := s.health - d }
  | .CollidedWithBoat p d imp ram =>
      if s.health ≤ d then
        { s with events := .boatDied false :: .ramCredit p :: s.events,
                 removed := some (if ram then .Ram p else .Boat p) }
      else { s with health := s.health - d,
                    velocity := clampMagnitude (s.velocity + imp) 15 }
  | .CollidedWithObstacle imp et =>
      match killIn s.killCountdown delta (ticksFromSecs 6) with
      | (k, true) =>
        { s with killCountdown := k, events := .boatDied true :: s.events,
                 removed := some (.Entity et) }
      | (k, false) =>
        { s with killCountdown := k,
                 velocity := clampMagnitude (s.velocity + imp) 20 }
  | .ClearSpawnProtection => { s with spawnProtection := false }
  | .UpgradeHq => { s with upgradedHq := true, ticks := 0 }
  | .Repair n => { s with repairApplied := s.repairApplied + n }
  | .Reload n => { s with reloadApplied := s.reloadApplied + n }
  | .ReloadLimited et inst => { s with events := .reloadLimited et inst :: s.events }
  | .Score n => { s with score := s.score + n }
  | .CollectedBy p sc =>
      { s with events := .collect p sc :: s.events, removed := some .Unknown }
  | .Guidance dt at_ _ =>
      if isLastOfType then { s with directionTarget := dt, altitudeTarget := some at_ }
      else s
  | .Attraction dl vel => { s with direction := dl, velocity := vel }
  | .FireAll sk =>
      { s with ticks := 0,
               spawned := s.spawned ++ (armaments.filter (fun a => a.2 == sk)).map Prod.fst }

/-- Discriminant used for `is_last_of_type`. -/
def Mutation.mutType : Mutation → Nat
  | .CollidedWithBoat _ _ _ _ => 0
  | .CollidedWithObstacle _ _ => 1
  | .ClearSpawnProtection => 2
  | .UpgradeHq => 3
  | .Score _ => 4
  | .Remove _ => 5
  | .Repair _ => 6
  | .Reload _ => 7
  | .ReloadLimited _ _ => 8
  | .CollectedBy _ _ => 9
  | .HitBy _ _ _ => 10
  | .Attraction _ _ => 11
  | .Guidance _ _ _ => 12
  | .FireAll _ => 13

/-- Models the spec's processing order for one target entity: mutation `a`
may come before `b` when its absolute priority is higher, or equal with a
relative priority at least as high (a stable sort keeps insertion order on
full ties). -/
def mutationLE (a b : Mutation) : Prop :=
  b.absolute_priority < a.absolute_priority ∨
    (a.absolute_priority = b.absolute_priority ∧ b.relative_priority ≤ a.relative_priority)

instance : DecidableRel mutationLE := fun a b => by
  unfold mutationLE; infer_instance

instance : IsTotal Mutation mutationLE := by
  constructor
  intro a b
  rcases lt_trichotomy a.absolute_priority b.absolute_priority with h | h | h
  · exact Or.inr (Or.inl h)
  · rcases le_total a.relative_priority b.relative_priority with hr | hr
    · exact Or.inr (Or.inr ⟨h.symm, hr⟩)
    · exact Or.inl (Or.inr ⟨h, hr⟩)
  · exact Or.inl (Or.inl h)

instance : IsTrans Mutation mutationLE := by
  constructor
  intro a b c hab hbc
  rcases hab with h | ⟨h1, h2⟩ <;> rcases hbc with h' | ⟨h1', h2'⟩
  · exact Or.inl (h'.trans h)
  · exact Or.inl (h1' ▸ h)
  · exact Or.inl (h1 ▸ h')
  · exact Or.inr ⟨h1.trans h1', h2'.trans h2⟩

/-- Models the spec's per-entity drain: stable sort by
(absolute desc, relative desc, insertion order). -/
def sortMutations (l : List Mutation) : List Mutation := l.insertionSort mutationLE

/-- Models the spec's per-entity drain loop over an already sorted list:
apply in order with `is_last_of_type`, and discard the rest once a
mutation reports removal. -/
def processSorted (armaments : List (EntityTypeId × EntitySubKind)) (delta : Nat) :
    MState → List Mutation → MState
  | s, [] => s
  | s, m :: rest =>
      if s.removed.isSome then s
      else
        processSorted armaments delta
          (m.apply armaments delta (rest.all fun n => n.mutType != m.mutType) s) rest

/-- Full pipeline: sort an enqueue-ordered list, then drain it. -/
def processMutations (armaments : List (EntityTypeId × EntitySubKind)) (delta : Nat)
    (s : MState) (l : List Mutation) : MState :=
  processSorted armaments delta s (sortMutations l)

/-- Priority key of a mutation. -/
def mutationKey (m : Mutation) : Int × ℚ := (m.absolute_priority, m.relative_priority)

lemma mutationKey_eq_of_le_le {a b : Mutation} (h1 : mutationLE a b) (h2 : mutationLE b a) :
    mutationKey a = mutationKey b := by
  unfold mutationKey
  rcases h1 with h1 | ⟨h1a, h1r⟩ <;> rcases h2 with h2 | ⟨h2a, h2r⟩
  · exact absurd h1 (by omega)
  · exact absurd h1 (by omega)
  · exact absurd h2 (by omega)
  · exact Prod.ext h1a (le_antisymm h2r h1r)

/-- Two sorted lists of mutations with pairwise distinct priority keys
that are permutations of each other are equal. -/
lemma sorted_unique_of_nodup_keys :
    ∀ {l₁ l₂ : List Mutation}, l₁.Perm l₂ → l₁.Sorted mutationLE → l₂.Sorted mutationLE →
      (l₁.map mutationKey).Nodup → l₁ = l₂ := by
  intro l₁
  induction l₁ with
  | nil =>
    intro l₂ hp _ _ _
    exact hp.nil_eq
  | cons a t ih =>
    intro l₂ hp hs₁ hs₂ hnd
    cases l₂ with
    | nil => exact absurd hp.symm (by simp)
    | cons b t₂ =>
      have hab : a = b := by
        by_contra hne
        have hbmem : b ∈ a :: t := hp.symm.subset (List.mem_cons_self b t₂)
        have hamem : a ∈ b :: t₂ := hp.subset (List.mem_cons_self a t)
        have hbt : b ∈ t := by
          rcases List.mem_cons.1 hbmem with h | h
          · exact absurd h.symm hne
          · exact h
        have hat₂ : a ∈ t₂ := by
          rcases List.mem_cons.1 hamem with h | h
          · exact absurd h hne
          · exact h
        have h1 : mutationLE a b := (List.sorted_cons.1 hs₁).1 b hbt
        have h2 : mutationLE b a := (List.sorted_cons.1 hs₂).1 a hat₂
        have hkey : mutationKey a = mutationKey b := mutationKey_eq_of_le_le h1 h2
        have hmemk : mutationKey b ∈ t.map mutationKey := List.mem_map_of_mem _ hbt
        exact (List.nodup_cons.1 hnd).1 (hkey ▸ hmemk)
      subst hab
      have hp' : t.Perm t₂ := hp.cons_inv
      rw [ih hp' (List.sorted_cons.1 hs₁).2 (List.sorted_cons.1 hs₂).2
        (List.nodup_cons.1 hnd).2]

/-- In a sorted list, every element is related to the last one (or is it). -/
lemma sorted_rel_getLast :
    ∀ {l : List Mutation} {w : Mutation}, l.Sorted mutationLE → l.getLast? = some w →
      ∀ x ∈ l, mutationLE x w ∨ x = w := by
  intro l
  induction l with
  | nil => intro w _ h; simp at h
  | cons a t ih =>
    intro w hs hl x hx
    cases t with
    | nil =>
      simp only [List.getLast?_singleton, Option.some_inj] at hl
      rcases List.mem_singleton.1 hx with rfl
      exact Or.inr hl
    | cons c t' =>
      rw [List.getLast?_cons_cons] at hl
      have hwmem : w ∈ c :: t' := List.mem_of_getLast?_eq_some hl
      rcases List.mem_cons.1 hx with rfl | hx
      · exact Or.inl ((List.sorted_cons.1 hs).1 w hwmem)
      · exact ih (List.sorted_cons.1 hs).2 hl x hx

/-- Tests whether a mutation is a `Guidance`. -/
def Mutation.isGuidance : Mutation → Bool
  | .Guidance _ _ _ => true
  | _ => false

/-- Signal strength of a `Guidance` mutation (0 otherwise). -/
def Mutation.signalOf : Mutation → ℚ
  | .Guidance _ _ s => s
  | _ => 0

lemma guidance_abs_rel {g : Mutation} (hg : g.isGuidance = true) :
    g.absolute_priority = 100 ∧ g.relative_priority = -g.signalOf := by
  cases g
  case Guidance dt at_ sg => exact ⟨rfl, rfl⟩
  all_goals simp [Mutation.isGuidance] at hg

/-- Baseline entity state used in concrete instances. -/
def exampleState : MState :=
  { removed := none, health := 100, killCountdown := none, velocity := 0,
    direction := (1, 0), directionTarget := 0, altitudeTarget := none,
    ticks := 0, score := 0, spawnProtection := true, repairApplied := 0,
    reloadApplied := 0, upgradedHq := false, events := [], spawned := [] }

/-- C4 counterexample: two `Attraction` mutations with the same `Δ`
(hence exactly tied priorities) but different velocities form a multiset
whose processed final state depends on the enqueue order — the tie is
broken by insertion order, and the later `Attraction` overwrites the
velocity.  These are not `Guidance` mutations, so the claim's exception
does not cover them. -/
lemma sort_pair (a b : Mutation) (h : mutationLE a b) : sortMutations [a, b] = [a, b] := by
  unfold sortMutations
  show List.orderedInsert mutationLE a (List.orderedInsert mutationLE b []) = [a, b]
  simp [List.orderedInsert, if_pos h]

theorem mutation_order_dependent :
    [Mutation.Attraction (1, 0) 5, Mutation.Attraction (1, 0) 7].Perm
      [Mutation.Attraction (1, 0) 7, Mutation.Attraction (1, 0) 5] ∧
    processMutations [] 1 exampleState
        [Mutation.Attraction (1, 0) 5, Mutation.Attraction (1, 0) 7] ≠
      processMutations [] 1 exampleState
        [Mutation.Attraction (1, 0) 7, Mutation.Attraction (1, 0) 5] := by
  have hs1 : sortMutations [Mutation.Attraction (1, 0) 5, Mutation.Attraction (1, 0) 7] =
      [Mutation.Attraction (1, 0) 5, Mutation.Attraction (1, 0) 7] :=
    sort_pair _ _ (Or.inr ⟨rfl, le_refl _⟩)
  have hs2 : sortMutations [Mutation.Attraction (1, 0) 7, Mutation.Attraction (1, 0) 5] =
      [Mutation.Attraction (1, 0) 7, Mutation.Attraction (1, 0) 5] :=
    sort_pair _ _ (Or.inr ⟨rfl, le_refl _⟩)
  refine ⟨List.Perm.swap _ _ _, ?_⟩
  intro h
  have hv := congrArg MState.velocity h
  unfold processMutations at hv
  rw [hs1, hs2] at hv
  have h7 : (processSorted [] 1 exampleState
      [Mutation.Attraction (1, 0) 5, Mutation.Attraction (1, 0) 7]).velocity = 7 := rfl
  have h5 : (processSorted [] 1 exampleState
      [Mutation.Attraction (1, 0) 7, Mutation.Attraction (1, 0) 5]).velocity = 5 := rfl
  rw [h7, h5] at hv
  exact absurd hv (by norm_num)

/-- C4 (amended).  Mutation ordering is enqueue-order independent
whenever no two queued mutations tie on both the absolute and the relative
priority: the sorted sequences — and hence the drained final states, for
the whole `Mutation::apply` semantics — coincide for any two enqueue
orders of the same multiset.  (On full ties the stable sort falls back to
insertion order, and non-commuting tied mutations such as equal-distance
`Attraction`s make the final state depend on it.)  Moreover the `Guidance`
that takes effect — the last one in sorted order, the only one applied
with `is_last_of_type` — always has the largest signal strength of all
queued `Guidance` mutations. -/
theorem mutation_order_independent :
    (∀ (armaments : List (EntityTypeId × EntitySubKind)) (delta : Nat) (s : MState)
        (l₁ l₂ : List Mutation),
      l₁.Perm l₂ → (l₁.map mutationKey).Nodup →
      sortMutations l₁ = sortMutations l₂ ∧
        processMutations armaments delta s l₁ = processMutations armaments delta s l₂) ∧
    (∀ (l : List Mutation) (w : Mutation),
      ((sortMutations l).filter Mutation.isGuidance).getLast? = some w →
      ∀ g ∈ l, g.isGuidance = true → g.signalOf ≤ w.signalOf) := by
  constructor
  · intro armaments delta s l₁ l₂ hperm hnd
    have hsort : sortMutations l₁ = sortMutations l₂ := by
      apply sorted_unique_of_nodup_keys
      · exact (List.perm_insertionSort mutationLE l₁).trans
          (hperm.trans (List.perm_insertionSort mutationLE l₂).symm)
      · exact List.sorted_insertionSort mutationLE l₁
      · exact List.sorted_insertionSort mutationLE l₂
      · exact ((List.perm_insertionSort mutationLE l₁).map mutationKey).nodup_iff.2 hnd
    exact ⟨hsort, by unfold processMutations; rw [hsort]⟩
  · intro l w hlast g hgl hg
    have hsorted : (sortMutations l).Sorted mutationLE :=
      List.sorted_insertionSort mutationLE l
    have hsf : ((sortMutations l).filter Mutation.isGuidance).Sorted mutationLE :=
      hsorted.filter _
    have hgmem : g ∈ (sortMutations l).filter Mutation.isGuidance := by
      refine List.mem_filter.2 ⟨?_, hg⟩
      exact (List.perm_insertionSort mutationLE l).symm.subset hgl
    have hwg : w.isGuidance = true :=
      (List.mem_filter.1 (List.mem_of_getLast?_eq_some hlast)).2
    rcases sorted_rel_getLast hsf hlast g hgmem with hle | rfl
    · obtain ⟨hga, hgr⟩ := guidance_abs_rel hg
      obtain ⟨hwa, hwr⟩ := guidance_abs_rel hwg
      rcases hle with h | ⟨_, h⟩
      · rw [hga, hwa] at h; exact absurd h (lt_irrefl _)
      · rw [hgr, hwr] at h; linarith
    · exact le_refl _

/-! ### Muzzle-flash particle generation (client/src/interpolated_contact.rs) -/

/-- Modelled from the spec: `Contact` (common/src/contact.rs is not among
the sources) — optional entity type, reload vector, and the
`reloads_known`/`turrets_known` transmission flags; only the fields that
`generate_particles` consults are carried. -/
structure Contact where
  entityType : Option EntityTypeId
  reloadsKnown : Bool
  turretsKnown : Bool
  reloads : List Nat
deriving DecidableEq, Repr

/-- Embedded muzzle-flash armament filter from
`InterpolatedContact::generate_particles`:
`matches!(sub_kind, Shell | Rocket | RocketTorpedo | Missile)`. -/
def muzzleFlashSubKind : EntitySubKind → Bool
  | .Shell => true
  | .Rocket => true
  | .RocketTorpedo => true
  | .Missile => true
  | _ => false

/-- Embedded particle-count structure of
`InterpolatedContact::generate_particles` from interpolated_contact.rs:
per armament index `i` of `view.reloads`, the number of particles pushed
(`amount = 10` on a fire, geometry and randomness affect only each
particle's position/velocity, not the count).  `armamentSubKinds` is the
sub-kind of `data.armaments[i].entity_type` from the catalog. -/
def generate_particles (armamentSubKinds : List EntitySubKind) (model view : Contact) :
    List Nat :=
  match model.entityType with
  | none => List.replicate view.reloads.length 0
  | some _ =>
    if view.entityType = model.entityType ∧ view.reloadsKnown ∧ model.reloadsKnown ∧
        view.turretsKnown then
      (List.range view.reloads.length).map fun i =>
        if model.reloads.getD i 0 = 0 ∨ view.reloads.getD i 0 ≠ 0 then 0
        else if muzzleFlashSubKind (armamentSubKinds.getD i EntitySubKind.Battleship) then 10
        else 0
    else List.replicate view.reloads.length 0

/-- C1 counterexample (spec scenario S4): `view.reloads = [10]`,
`model.reloads = [0]`, a `Shell` armament, all flags known, same entity
type — the claim's fire condition `view.reloads[i] != 0 &&
model.reloads[i] == 0` holds at index 0, yet the code emits 0 particles
(the code fires on the reverse condition). -/
theorem fire_detection_reversed :
    (Contact.mk (some 0) true true [10]).reloads.getD 0 0 ≠ 0 ∧
    (Contact.mk (some 0) true true [0]).reloads.getD 0 0 = 0 ∧
    generate_particles [EntitySubKind.Shell]
      (Contact.mk (some 0) true true [0]) (Contact.mk (some 0) true true [10]) = [0] := by
  refine ⟨by decide, rfl, rfl⟩

/-- C1 (amended).  Muzzle-flash fire detection: when model and view have
the same (known) entity type and reloads/turrets are known, armament index
`i` is treated as just fired exactly when `view.reloads[i] == 0` and
`model.reloads[i] != 0` (the armament was ready and is now reloading); for
every such `i` whose armament sub-kind is Shell, Rocket, RocketTorpedo, or
Missile exactly 10 particles are emitted, and 0 particles for any other
sub-kind; one count is produced per armament index. -/
theorem muzzle_flash_counts (armamentSubKinds : List EntitySubKind) (model view : Contact)
    (mt : EntityTypeId)
    (hmt : model.entityType = some mt) (hvt : view.entityType = model.entityType)
    (hrk : view.reloadsKnown = true) (hmk : model.reloadsKnown = true)
    (htk : view.turretsKnown = true) :
    (generate_particles armamentSubKinds model view).length = view.reloads.length ∧
    ∀ i, i < view.reloads.length →
      (generate_particles armamentSubKinds model view).getD i 0 =
        (if view.reloads.getD i 0 = 0 ∧ model.reloads.getD i 0 ≠ 0 ∧
            muzzleFlashSubKind (armamentSubKinds.getD i EntitySubKind.Battleship) = true
         then 10 else 0) := by
  have fire_if_shape : ∀ (old new : Nat) (mf : Bool),
      (if new = 0 ∨ old ≠ 0 then (0 : Nat) else if mf then 10 else 0) =
        (if old = 0 ∧ new ≠ 0 ∧ mf = true then 10 else 0) := by
    intro old new mf
    by_cases h1 : new = 0 <;> by_cases h2 : old = 0 <;> by_cases h3 : mf <;>
      simp [h1, h2, h3]
  unfold generate_particles
  rw [hmt]
  rw [if_pos ⟨hvt.trans hmt, hrk, hmk, htk⟩]
  constructor
  · rw [List.length_map, List.length_range]
  · intro i hi
    rw [List.getD_eq_getElem?_getD, List.getElem?_map, List.getElem?_range hi]
    simp only [Option.map_some', Option.getD_some]
    exact fire_if_shape (view.reloads.getD i 0) (model.reloads.getD i 0) _

/-- C1 witness: a fired Shell at index 0 yields count 10. -/
theorem muzzle_flash_counts_witness :
    (generate_particles [EntitySubKind.Shell]
      (Contact.mk (some 0) true true [10]) (Contact.mk (some 0) true true [0])).getD 0 0 =
      10 := by
  have h := (muzzle_flash_counts [EntitySubKind.Shell]
    (Contact.mk (some 0) true true [10]) (Contact.mk (some 0) true true [0])
    0 rfl rfl rfl rfl rfl).2 0 (by decide)
  simpa using h

/-! ### Best-armament selection (client/src/armament.rs, common/src/entity.rs) -/

/-- Modelled from the spec: `Angle` (common/src/angle.rs is not among the
sources) is a wrapped circular value whose differences are normalized to
(−π, π]; modelled as exact degrees in (−180, 180]. -/
def Angle.wrap (q : ℚ) : ℚ := q - 360 * (⌈(q - 180) / 360⌉ : ℤ)

/-- Wrapped subtraction of angles. -/
def Angle.sub (a b : ℚ) : ℚ := Angle.wrap (a - b)

/-- Wrapped addition of angles. -/
def Angle.add (a b : ℚ) : ℚ := Angle.wrap (a + b)

/-- Wrapped negation of an angle. -/
def Angle.neg (a : ℚ) : ℚ := Angle.wrap (-a)

/-- Magnitude of a wrapped angle (`Angle::abs`). -/
def Angle.absA (a : ℚ) : ℚ := |Angle.wrap a|

/-- Embedded `Turret` azimuth data from entity.rs (the fields
`within_azimuth` consults: base angle and the four azimuth limits). -/
structure Turret where
  angle : ℚ
  azimuth_fl : ℚ
  azimuth_fr : ℚ
  azimuth_bl : ℚ
  azimuth_br : ℚ
deriving DecidableEq, Repr

/-- Fallback turret for out-of-bounds indexing (the Rust code would
panic; the claims only use in-bounds indices). -/
def defaultTurret : Turret := ⟨0, 0, 0, 0, 0⟩

/-- Embedded `Turret::within_azimuth` from entity.rs: the boat-relative
angle must avoid the restricted arc around the base angle and the one
around its opposite. -/
def Turret.within_azimuth (t : Turret) (curr : ℚ) : Bool :=
  let azimuth_f := Angle.sub curr t.angle
  if Angle.neg t.azimuth_fr < azimuth_f ∧ azimuth_f < t.azimuth_fl then false
  else
    let azimuth_b := Angle.sub (Angle.add 180 curr) t.angle
    decide (¬(Angle.neg t.azimuth_bl < azimuth_b ∧ azimuth_b < t.azimuth_br))

/-- Per-armament inputs of `Mk48Game::find_best_armament`.  `position`
and `direction` are the armament transform (boat transform composed with
`armament_transform`), and `directionTarget` is
`Angle::from(mouse_position − transform.position)`; the float geometry
producing them is taken as input, while the score arithmetic on them is
embedded exactly. -/
structure ArmamentInput where
  kind : EntityKind
  subKind : EntitySubKind
  sonarRange : ℚ
  vertical : Bool
  turret : Option Nat
  position : ℚ × ℚ
  direction : ℚ
  directionTarget : ℚ
deriving DecidableEq, Repr

/-- Fallback armament for out-of-bounds indexing (the Rust code would
panic; the claims only use in-bounds indices). -/
def defaultArmament : ArmamentInput :=
  ⟨EntityKind.Weapon, EntitySubKind.Torpedo, 0, false, none, (0, 0), 0, 0⟩

/-- Embedded angle-difference computation of `find_best_armament`:
`(armament_direction_target − transform.direction).abs()`, forced to zero
for vertical armaments, Aircraft, Depositor, DepthCharge and Mine. -/
def armamentAngleDiff (a : ArmamentInput) : ℚ :=
  if a.vertical ∨ a.kind = EntityKind.Aircraft ∨ a.subKind = EntitySubKind.Depositor ∨
      a.subKind = EntitySubKind.DepthCharge ∨ a.subKind = EntitySubKind.Mine then 0
  else Angle.absA (a.directionTarget - a.direction)

/-- Embedded `max_angle_diff` table of `find_best_armament` (degrees). -/
def armamentMaxAngleDiff (a : ArmamentInput) : ℚ :=
  match a.subKind with
  | .Shell => 30
  | .Rocket => 45
  | .RocketTorpedo => 75
  | .Torpedo => if a.sonarRange > 0 then 150 else 90
  | _ => 90

/-- Squared distance `mouse_position.distance_squared(transform.position)`. -/
def distanceSquared (mouse pos : ℚ × ℚ) : ℚ :=
  (mouse.1 - pos.1) * (mouse.1 - pos.1) + (mouse.2 - pos.2) * (mouse.2 - pos.2)

/-- Embedded score of `find_best_armament`:
`angle_diff.to_degrees().powi(2) + distance_squared` (lower is better). -/
def armamentScore (mouse : ℚ × ℚ) (a : ArmamentInput) : ℚ :=
  armamentAngleDiff a * armamentAngleDiff a + distanceSquared mouse a.position

/-- Embedded eligibility conditions (the `continue` guards) of
`find_best_armament`: type filter, zero reload, host turret within
azimuth, and the angle limit when enabled. -/
def armamentEligible (armaments : List ArmamentInput) (reloads : List Nat)
    (turrets : List Turret) (turretAngles : List ℚ) (angle_limit : Bool)
    (sel : EntityKind × EntitySubKind) (i : Nat) : Prop :=
  let a := armaments.getD i defaultArmament
  (a.kind = sel.1 ∧ a.subKind = sel.2) ∧
  reloads.getD i 0 = 0 ∧
  (Option.any (fun ti =>
      !(turrets.getD ti defaultTurret).within_azimuth (turretAngles.getD ti 0)) a.turret
    = false) ∧
  (angle_limit = false ∨ armamentAngleDiff a < armamentMaxAngleDiff a)

instance armamentEligible.instDec (armaments reloads turrets turretAngles angle_limit sel i) :
    Decidable (armamentEligible armaments reloads turrets turretAngles angle_limit sel i) := by
  unfold armamentEligible; infer_instance

/-- Embedded loop body of `find_best_armament`. -/
def bestArmamentStep (armaments : List ArmamentInput) (reloads : List Nat)
    (turrets : List Turret) (turretAngles : List ℚ) (angle_limit : Bool)
    (mouse : ℚ × ℚ) (sel : EntityKind × EntitySubKind)
    (best : Option (Nat × ℚ)) (i : Nat) : Option (Nat × ℚ) :=
  let a := armaments.getD i defaultArmament
  if ¬(a.kind = sel.1 ∧ a.subKind = sel.2) then best
  else if reloads.getD i 0 ≠ 0 then best
  else if Option.any (fun ti =>
      !(turrets.getD ti defaultTurret).within_azimuth (turretAngles.getD ti 0)) a.turret then
    best
  else if angle_limit = false ∨ armamentAngleDiff a < armamentMaxAngleDiff a then
    let score := armamentScore mouse a
    match best with
    | some (_, s) => if score < s then some (i, score) else best
    | none => some (i, score)
  else best

/-- Embedded `Mk48Game::find_best_armament` from armament.rs: scan the
armament indices in order keeping the index of the strictly lowest score
seen so far. -/
def find_best_armament (armaments : List ArmamentInput) (reloads : List Nat)
    (turrets : List Turret) (turretAngles : List ℚ) (angle_limit : Bool)
    (mouse : ℚ × ℚ) (selection : Option (EntityKind × EntitySubKind)) : Option Nat :=
  match selection with
  | none => none
  | some sel =>
    ((List.range armaments.length).foldl
      (bestArmamentStep armaments reloads turrets turretAngles angle_limit mouse sel)
      none).map Prod.fst

section BestArmamentProof

variable (armaments : List ArmamentInput) (reloads : List Nat) (turrets : List Turret)
  (turretAngles : List ℚ) (angle_limit : Bool) (mouse : ℚ × ℚ)
  (sel : EntityKind × EntitySubKind)

/-- Invariant of the selection loop after scanning the first `n` indices:
either nothing eligible was seen, or the state holds the first index
attaining the minimal score among the eligible indices below `n`. -/
def BestInv (n : Nat) : Option (Nat × ℚ) → Prop
  | none => ∀ j, j < n → ¬ armamentEligible armaments reloads turrets turretAngles angle_limit sel j
  | some (i, s) =>
      i < n ∧ armamentEligible armaments reloads turrets turretAngles angle_limit sel i ∧
      s = armamentScore mouse (armaments.getD i defaultArmament) ∧
      (∀ j, j < n → armamentEligible armaments reloads turrets turretAngles angle_limit sel j →
        s ≤ armamentScore mouse (armaments.getD j defaultArmament)) ∧
      (∀ j, j < i → armamentEligible armaments reloads turrets turretAngles angle_limit sel j →
        s < armamentScore mouse (armaments.getD j defaultArmament))

lemma bestArmamentStep_not_elig (best : Option (Nat × ℚ)) (i : Nat)
    (h : ¬ armamentEligible armaments reloads turrets turretAngles angle_limit sel i) :
    bestArmamentStep armaments reloads turrets turretAngles angle_limit mouse sel best i =
      best := by
  simp only [bestArmamentStep]
  by_cases h1 : (armaments.getD i defaultArmament).kind = sel.1 ∧
      (armaments.getD i defaultArmament).subKind = sel.2
  · rw [if_neg (not_not.2 h1)]
    by_cases h2 : reloads.getD i 0 = 0
    · rw [if_neg (not_not.2 h2)]
      by_cases h3 : Option.any (fun ti =>
          !(turrets.getD ti defaultTurret).within_azimuth (turretAngles.getD ti 0))
            (armaments.getD i defaultArmament).turret = true
      · rw [if_pos h3]
      · rw [if_neg h3]
        by_cases h4 : angle_limit = false ∨
            armamentAngleDiff (armaments.getD i defaultArmament) <
              armamentMaxAngleDiff (armaments.getD i defaultArmament)
        · exact absurd ⟨h1, h2, by simpa using h3, h4⟩ h
        · rw [if_neg h4]
    · rw [if_pos h2]
  · rw [if_pos h1]

lemma bestArmamentStep_elig (best : Option (Nat × ℚ)) (i : Nat)
    (h : armamentEligible armaments reloads turrets turretAngles angle_limit sel i) :
    bestArmamentStep armaments reloads turrets turretAngles angle_limit mouse sel best i =
      match best with
      | some p =>
          if armamentScore mouse (armaments.getD i defaultArmament) < p.2
          then some (i, armamentScore mouse (armaments.getD i defaultArmament))
          else best
      | none => some (i, armamentScore mouse (armaments.getD i defaultArmament)) := by
  obtain ⟨h1, h2, h3, h4⟩ := h
  simp only [bestArmamentStep]
  rw [if_neg (not_not.2 h1), if_neg (not_not.2 h2),
    if_neg (fun hcon => by rw [h3] at hcon; exact Bool.false_ne_true hcon), if_pos h4]
  cases best with
  | none => rfl
  | some p => rfl

lemma bestInv_step (n : Nat) (state : Option (Nat × ℚ))
    (h : BestInv armaments reloads turrets turretAngles angle_limit mouse sel n state) :
    BestInv armaments reloads turrets turretAngles angle_limit mouse sel (n + 1)
      (bestArmamentStep armaments reloads turrets turretAngles angle_limit mouse sel state n) := by
  by_cases he : armamentEligible armaments reloads turrets turretAngles angle_limit sel n
  · rw [bestArmamentStep_elig armaments reloads turrets turretAngles angle_limit mouse sel
      state n he]
    cases state with
    | none =>
      refine ⟨Nat.lt_succ_self n, he, rfl, ?_, ?_⟩
      · intro j hj hje
        rcases Nat.lt_succ_iff_lt_or_eq.1 hj with hj | rfl
        · exact absurd hje (h j hj)
        · exact le_refl _
      · intro j hj hje
        exact absurd hje (h j hj)
    | some p =>
      obtain ⟨i, s⟩ := p
      obtain ⟨hin, hie, hs, hmin, hstrict⟩ := h
      by_cases hlt : armamentScore mouse (armaments.getD n defaultArmament) < s
      · simp only [if_pos hlt]
        refine ⟨Nat.lt_succ_self n, he, rfl, ?_, ?_⟩
        · intro j hj hje
          rcases Nat.lt_succ_iff_lt_or_eq.1 hj with hj | rfl
          · exact le_of_lt (lt_of_lt_of_le hlt (hmin j hj hje))
          · exact le_refl _
        · intro j hj hje
          exact lt_of_lt_of_le hlt (hmin j hj hje)
      · simp only [if_neg hlt]
        refine ⟨Nat.lt_succ_of_lt hin, hie, hs, ?_, hstrict⟩
        intro j hj hje
        rcases Nat.lt_succ_iff_lt_or_eq.1 hj with hj | rfl
        · exact hmin j hj hje
        · exact le_of_not_lt hlt
  · rw [bestArmamentStep_not_elig armaments reloads turrets turretAngles angle_limit mouse sel
      state n he]
    cases state with
    | none =>
      intro j hj
      rcases Nat.lt_succ_iff_lt_or_eq.1 hj with hj | rfl
      · exact h j hj
      · exact he
    | some p =>
      obtain ⟨i, s⟩ := p
      obtain ⟨hin, hie, hs, hmin, hstrict⟩ := h
      refine ⟨Nat.lt_succ_of_lt hin, hie, hs, ?_, hstrict⟩
      intro j hj hje
      rcases Nat.lt_succ_iff_lt_or_eq.1 hj with hj | rfl
      · exact hmin j hj hje
      · exact absurd hje he

lemma bestInv_foldl (n : Nat) :
    BestInv armaments reloads turrets turretAngles angle_limit mouse sel n
      ((List.range n).foldl
        (bestArmamentStep armaments reloads turrets turretAngles angle_limit mouse sel)
        none) := by
  induction n with
  | zero => intro j hj; omega
  | succ n ih =>
    rw [List.range_succ, List.foldl_append, List.foldl_cons, List.foldl_nil]
    exact bestInv_step armaments reloads turrets turretAngles angle_limit mouse sel n _ ih

/-- C9.  Best-armament selection: with a `(kind, sub_kind)` filter,
`find_best_armament` returns `some i` exactly when `i` is an eligible
armament index (filter match, zero reload, host turret within azimuth,
angle limit respected) whose score `angle_diff_degrees² + |mouse − pos|²`
is minimal among all eligible indices, with ties broken by the lowest
index (every eligible index below `i` has a strictly larger score); with
no filter selected the result is `none`.  The function is a deterministic
function of its inputs. -/
theorem find_best_armament_spec :
    (∀ i : Nat,
      find_best_armament armaments reloads turrets turretAngles angle_limit mouse (some sel) =
          some i ↔
        (i < armaments.length ∧
         armamentEligible armaments reloads turrets turretAngles angle_limit sel i ∧
         (∀ j, j < armaments.length →
           armamentEligible armaments reloads turrets turretAngles angle_limit sel j →
           armamentScore mouse (armaments.getD i defaultArmament) ≤
             armamentScore mouse (armaments.getD j defaultArmament)) ∧
         (∀ j, j < i →
           armamentEligible armaments reloads turrets turretAngles angle_limit sel j →
           armamentScore mouse (armaments.getD i defaultArmament) <
             armamentScore mouse (armaments.getD j defaultArmament)))) ∧
    find_best_armament armaments reloads turrets turretAngles angle_limit mouse none = none := by
  have hinv := bestInv_foldl armaments reloads turrets turretAngles angle_limit mouse sel
    armaments.length
  constructor
  · intro i
    constructor
    · intro hfind
      have hfind' : Option.map Prod.fst
          ((List.range armaments.length).foldl
            (bestArmamentStep armaments reloads turrets turretAngles angle_limit mouse sel)
            none) = some i := hfind
      rcases hstate : (List.range armaments.length).foldl
          (bestArmamentStep armaments reloads turrets turretAngles angle_limit mouse sel)
          none with _ | p
      · rw [hstate] at hfind'; simp at hfind'
      · obtain ⟨i', s⟩ := p
        rw [hstate] at hfind'
        simp only [Option.map_some', Option.some_inj] at hfind'
        subst hfind'
        rw [hstate] at hinv
        obtain ⟨hin, hie, hs, hmin, hstrict⟩ := hinv
        exact ⟨hin, hie, fun j hj hje => hs ▸ hmin j hj hje,
          fun j hj hje => hs ▸ hstrict j hj hje⟩
    · rintro ⟨hin, hie, hmin, hstrict⟩
      show Option.map Prod.fst
          ((List.range armaments.length).foldl
            (bestArmamentStep armaments reloads turrets turretAngles angle_limit mouse sel)
            none) = some i
      rcases hstate : (List.range armaments.length).foldl
          (bestArmamentStep armaments reloads turrets turretAngles angle_limit mouse sel)
          none with _ | p
      · rw [hstate] at hinv
        exact absurd hie (hinv i hin)
      · obtain ⟨i', s⟩ := p
        rw [hstate] at hinv
        obtain ⟨hin', hie', hs', hmin', hstrict'⟩ := hinv
        have hii : i' = i := by
          rcases lt_trichotomy i' i with hlt | heq | hgt
          · have h1 := hstrict i' hlt hie'
            have h2 := hmin' i hin hie
            rw [hs'] at h2
            exact absurd (lt_of_le_of_lt h2 h1) (lt_irrefl _)
          · exact heq
          · have h1 := hstrict' i hgt hie
            have h2 := hmin i' hin' hie'
            rw [hs'] at h1
            exact absurd (lt_of_le_of_lt h2 h1) (lt_irrefl _)
        rw [hii]
        rfl
  · rfl

end BestArmamentProof

/-- C9 witness: a single vertical torpedo armament matching the filter,
ready to fire, with no turret, is selected. -/
theorem find_best_armament_spec_witness :
    find_best_armament
      [{ kind := EntityKind.Weapon, subKind := EntitySubKind.Torpedo, sonarRange := 0,
         vertical := true, turret := none, position := (0, 0), direction := 0,
         directionTarget := 0 }]
      [0] [] [] false (0, 0) (some (EntityKind.Weapon, EntitySubKind.Torpedo)) = some 0 := by
  refine ((find_best_armament_spec _ _ _ _ _ _ _).1 0).2 ⟨by decide, ?_, ?_, ?_⟩
  · exact ⟨⟨rfl, rfl⟩, rfl, rfl, Or.inl rfl⟩
  · intro j hj hje
    have hj0 : j = 0 := by simp at hj; omega
    subst hj0
    exact le_refl _
  · intro j hj hje
    exact absurd hj (by omega)

/-! ### Terrain-collision consequences in the physics step
(server/src/world_physics.rs lines 233–294) -/

/-- Embedded `EntityData::is_land_based` from entity.rs. -/
def isLandBased (subKind : EntitySubKind) : Bool := subKind == EntitySubKind.Tree

/-- Embedded `TerrainMutation` from terrain.rs: position, amount, the
condition range of altitudes that may be modified, and the clamp range.
Altitudes are the raw `i8` values. -/
structure TerrainMutationM where
  position : ℚ × ℚ
  amount : ℚ
  condition : Int × Int
  clampRange : Int × Int
deriving DecidableEq, Repr

/-- Embedded `TerrainMutation::simple` from terrain.rs. -/
def TerrainMutationM.simple (position : ℚ × ℚ) (amount : ℚ) : TerrainMutationM :=
  ⟨position, amount, (-128, 127), (-128, 127)⟩

/-- Embedded `TerrainMutation::conditional` from terrain.rs. -/
def TerrainMutationM.conditional (position : ℚ × ℚ) (amount : ℚ)
    (condition : Int × Int) : TerrainMutationM :=
  ⟨position, amount, condition, (-128, 127)⟩

/-- Inputs of the terrain-collision fragment of `World::physics`:
the entity's kind/sub-kind, whether it is in the arctic
(`position.y >= ARCTIC`), the result of `collides_with_terrain`
(collision point and the raw altitude there), its velocity, the
spec-modelled `kill_in` countdown, and the tick delta. -/
structure TCInput where
  kind : EntityKind
  subKind : EntitySubKind
  arctic : Bool
  collision : Option ((ℚ × ℚ) × Int)
  velocity : ℚ
  killCountdown : Option Nat
  delta : Nat
deriving DecidableEq, Repr

/-- Outcome of the terrain-collision fragment: the fate (if removed this
tick), updated velocity, repair eligibility, the enqueued terrain
mutation (with the icebreaker score-award flag), and the updated
countdown. -/
structure TCOutput where
  fate : Option DeathReason
  velocity : ℚ
  repairEligible : Bool
  terrainMutation : Option (TerrainMutationM × Bool)
  killCountdown : Option Nat
deriving DecidableEq, Repr

/-- Embedded immunity condition of the terrain-collision fragment of
`World::physics`: Hovercraft always, Icebreaker in the arctic on altitude
at most 1, Dredger outside the arctic. -/
def tcImmune (subKind : EntitySubKind) (arctic : Bool) (alt : Int) : Prop :=
  subKind = EntitySubKind.Hovercraft ∨
    (arctic = true ∧ subKind = EntitySubKind.Icebreaker ∧ alt ≤ 1) ∨
    (arctic = false ∧ subKind = EntitySubKind.Dredger)

instance tcImmune.instDec (subKind arctic alt) : Decidable (tcImmune subKind arctic alt) := by
  unfold tcImmune; infer_instance

/-- Embedded `max_breakable` of the fragment: 1 (ice) for an arctic
icebreaker, 0 (sand) otherwise. -/
def tcMaxBreakable (subKind : EntitySubKind) (arctic : Bool) : Int :=
  if arctic = true ∧ subKind = EntitySubKind.Icebreaker then 1 else 0

/-- Embedded terrain-mutation enqueue of the fragment: every non-Hovercraft
pushes `TerrainMutation::conditional(collision_point, -20, 0..=breakable)`
when the collision altitude is in the breakable range, together with the
icebreaker score-award flag. -/
def tcMutation (subKind : EntitySubKind) (arctic : Bool) (point : ℚ × ℚ) (alt : Int) :
    Option (TerrainMutationM × Bool) :=
  if subKind ≠ EntitySubKind.Hovercraft then
    if 0 ≤ alt ∧ alt ≤ tcMaxBreakable subKind arctic then
      some (TerrainMutationM.conditional point (-20) (0, tcMaxBreakable subKind arctic),
        subKind == EntitySubKind.Icebreaker)
    else none
  else none

/-- Embedded boat branch of the terrain-collision fragment (velocity
clamp, immunity, terrain break, spec-modelled `kill_in(delta, 4 s)`). -/
def boatCollisionStep (subKind : EntitySubKind) (arctic : Bool) (point : ℚ × ℚ)
    (alt : Int) (velocity : ℚ) (killCountdown : Option Nat) (delta : Nat) : TCOutput :=
  if ¬ tcImmune subKind arctic alt then
    match killIn killCountdown delta (ticksFromSecs 4) with
    | (k, true) => ⟨some DeathReason.Terrain, clampMagnitude velocity 5, false,
        tcMutation subKind arctic point alt, k⟩
    | (k, false) => ⟨none, clampMagnitude velocity 5, false,
        tcMutation subKind arctic point alt, k⟩
  else ⟨none, clampMagnitude velocity 5, true, tcMutation subKind arctic point alt,
    killCountdown⟩

/-- Embedded terrain-collision consequence step from `World::physics`
(world_physics.rs lines 233–294). -/
def terrainCollisionStep (inp : TCInput) : TCOutput :=
  if inp.collision.isSome ≠ (isLandBased inp.subKind = true) then
    if inp.kind ≠ EntityKind.Boat then
      ⟨some DeathReason.Terrain, inp.velocity, true, none, inp.killCountdown⟩
    else
      match inp.collision with
      | some (collision_point, collision_altitude) =>
          boatCollisionStep inp.subKind inp.arctic collision_point collision_altitude
            inp.velocity inp.killCountdown inp.delta
      | none => ⟨none, inp.velocity, true, none, inp.killCountdown⟩
  else ⟨none, inp.velocity, true, none, inp.killCountdown⟩

/-- C2 counterexample: a `Dredger` boat outside the arctic colliding with
sand (altitude 0) is immune in the code — it keeps repair eligibility and
is not scheduled to die — whereas the claim's immunity list (Hovercraft
always, Icebreaker on ice ≤ 1) would have it lose repair eligibility and
die in 4 seconds. -/
theorem dredger_immunity_not_in_claim :
    (terrainCollisionStep
        ⟨EntityKind.Boat, EntitySubKind.Dredger, false, some ((0, 0), 0), 10, none, 1⟩).repairEligible
        = true ∧
    (terrainCollisionStep
        ⟨EntityKind.Boat, EntitySubKind.Dredger, false, some ((0, 0), 0), 10, none, 1⟩).fate
        = none ∧
    (terrainCollisionStep
        ⟨EntityKind.Boat, EntitySubKind.Dredger, false, some ((0, 0), 0), 10, none, 1⟩).killCountdown
        = none := by
  refine ⟨rfl, rfl, rfl⟩

lemma boatCollisionStep_immune (subKind arctic point alt velocity killCountdown delta)
    (h : tcImmune subKind arctic alt) :
    boatCollisionStep subKind arctic point alt velocity killCountdown delta =
      ⟨none, clampMagnitude velocity 5, true, tcMutation subKind arctic point alt,
        killCountdown⟩ := by
  unfold boatCollisionStep
  rw [if_neg (not_not.2 h)]

lemma boatCollisionStep_not_immune (subKind arctic point alt velocity killCountdown delta)
    (h : ¬ tcImmune subKind arctic alt) :
    boatCollisionStep subKind arctic point alt velocity killCountdown delta =
      if killCountdown.getD (ticksFromSecs 4) ≤ delta then
        ⟨some DeathReason.Terrain, clampMagnitude velocity 5, false,
          tcMutation subKind arctic point alt, some 0⟩
      else
        ⟨none, clampMagnitude velocity 5, false, tcMutation subKind arctic point alt,
          some (killCountdown.getD (ticksFromSecs 4) - delta)⟩ := by
  unfold boatCollisionStep killIn
  rw [if_pos h]
  by_cases hd : killCountdown.getD (ticksFromSecs 4) ≤ delta
  · rw [if_pos hd, if_pos hd]
  · rw [if_neg hd, if_neg hd]

/-- C2 (amended).  Terrain-collision consequences: for an entity whose
collision status disagrees with its land-based nature, a non-boat is
removed with `DeathReason::Terrain`; a colliding boat has its velocity
clamped to 5 m/s and enqueues
`TerrainMutation::conditional(collision_point, −20, 0..=breakable)` (with
the icebreaker score-award flag) exactly when it is not a Hovercraft and
the collision altitude lies in `0..=breakable`, where `breakable` is 1
(ice) for an arctic Icebreaker and 0 (sand) otherwise; it is immune to
the damage when it is a Hovercraft, an arctic Icebreaker hitting altitude
≤ 1, or a non-arctic Dredger; a non-immune boat loses repair eligibility
and is killed in 4 seconds (removed with `DeathReason::Terrain` once the
spec-modelled countdown elapses), while an immune boat keeps repair
eligibility and survives. -/
theorem terrain_collision_consequences (inp : TCInput)
    (point : ℚ × ℚ) (alt : Int)
    (hc : inp.collision = some (point, alt)) (hnl : isLandBased inp.subKind = false) :
    (inp.kind ≠ EntityKind.Boat →
      terrainCollisionStep inp =
        ⟨some DeathReason.Terrain, inp.velocity, true, none, inp.killCountdown⟩) ∧
    (inp.kind = EntityKind.Boat →
      (terrainCollisionStep inp).velocity = clampMagnitude inp.velocity 5 ∧
      (terrainCollisionStep inp).terrainMutation =
        (if inp.subKind ≠ EntitySubKind.Hovercraft ∧ 0 ≤ alt ∧
            alt ≤ tcMaxBreakable inp.subKind inp.arctic then
          some (TerrainMutationM.conditional point (-20)
            (0, tcMaxBreakable inp.subKind inp.arctic),
            inp.subKind == EntitySubKind.Icebreaker)
        else none) ∧
      (tcImmune inp.subKind inp.arctic alt →
        (terrainCollisionStep inp).repairEligible = true ∧
        (terrainCollisionStep inp).fate = none) ∧
      (¬ tcImmune inp.subKind inp.arctic alt →
        (terrainCollisionStep inp).repairEligible = false ∧
        (terrainCollisionStep inp).fate =
          (if inp.killCountdown.getD (ticksFromSecs 4) ≤ inp.delta
           then some DeathReason.Terrain else none))) := by
  have hmismatch : inp.collision.isSome ≠ (isLandBased inp.subKind = true) := by
    rw [hc, hnl]
    simp
  have htm : tcMutation inp.subKind inp.arctic point alt =
      (if inp.subKind ≠ EntitySubKind.Hovercraft ∧ 0 ≤ alt ∧
          alt ≤ tcMaxBreakable inp.subKind inp.arctic then
        some (TerrainMutationM.conditional point (-20)
          (0, tcMaxBreakable inp.subKind inp.arctic),
          inp.subKind == EntitySubKind.Icebreaker)
      else none) := by
    unfold tcMutation
    by_cases hhov : inp.subKind ≠ EntitySubKind.Hovercraft
    · rw [if_pos hhov]
      by_cases halt : 0 ≤ alt ∧ alt ≤ tcMaxBreakable inp.subKind inp.arctic
      · rw [if_pos halt, if_pos ⟨hhov, halt.1, halt.2⟩]
      · rw [if_neg halt, if_neg (by tauto)]
    · rw [if_neg hhov, if_neg (by tauto)]
  constructor
  · intro hk
    unfold terrainCollisionStep
    rw [if_pos hmismatch, if_pos hk]
  · intro hk
    have hstep : terrainCollisionStep inp =
        boatCollisionStep inp.subKind inp.arctic point alt inp.velocity
          inp.killCountdown inp.delta := by
      unfold terrainCollisionStep
      rw [if_pos hmismatch, if_neg (not_not.2 hk), hc]
    rw [hstep]
    by_cases him : tcImmune inp.subKind inp.arctic alt
    · rw [boatCollisionStep_immune _ _ _ _ _ _ _ him]
      exact ⟨rfl, htm, fun _ => ⟨rfl, rfl⟩, fun hcon => absurd him hcon⟩
    · rw [boatCollisionStep_not_immune _ _ _ _ _ _ _ him]
      by_cases hdead : inp.killCountdown.getD (ticksFromSecs 4) ≤ inp.delta
      · rw [if_pos hdead]
        exact ⟨rfl, htm, fun hcon => absurd hcon him,
          fun _ => ⟨rfl, by rw [if_pos hdead]⟩⟩
      · rw [if_neg hdead]
        exact ⟨rfl, htm, fun hcon => absurd hcon him,
          fun _ => ⟨rfl, by rw [if_neg hdead]⟩⟩

/-- C2 witness: a plain battleship hitting sand loses repair eligibility;
the instantiation discharges the collision and land-based hypotheses. -/
theorem terrain_collision_consequences_witness :
    (terrainCollisionStep
      ⟨EntityKind.Boat, EntitySubKind.Battleship, false, some ((0, 0), 0), 10, none, 1⟩).repairEligible = false := by
  have h := (terrain_collision_consequences
    ⟨EntityKind.Boat, EntitySubKind.Battleship, false, some ((0, 0), 0), 10, none, 1⟩
    (0, 0) 0 rfl rfl).2 rfl
  exact (h.2.2.2 (by decide)).1

/-! ### Border and latitude-band handling in the physics step
(server/src/world_physics.rs lines 320–351) -/

/-- Inputs of the border fragment of `World::physics`: entity kind,
position with its Euclidean norm `len` (supplied with its defining
property as a hypothesis where the fragment divides by it), the unit
heading vector (`direction.to_vec()`), scalar velocity, the spec-modelled
`kill_in` countdown, the tick delta, the world radius, and the
spec-modelled latitude band as an optional maximal `y`. -/
structure BorderInput where
  kind : EntityKind
  position : ℚ × ℚ
  len : ℚ
  direction : ℚ × ℚ
  velocity : ℚ
  killCountdown : Option Nat
  delta : Nat
  borderRadius : ℚ
  areaYMax : Option ℚ
deriving DecidableEq, Repr

/-- Outcome of the border fragment. -/
structure BorderOutput where
  fate : Option DeathReason
  position : ℚ × ℚ
  velocity : ℚ
  repairEligible : Bool
  killCountdown : Option Nat
deriving DecidableEq, Repr

/-- Embedded `outside_border` test:
`position.length_squared() > border_radius_squared`. -/
def outsideBorder (inp : BorderInput) : Prop :=
  inp.borderRadius * inp.borderRadius <
    inp.position.1 * inp.position.1 + inp.position.2 * inp.position.2

instance outsideBorder.instDec (inp : BorderInput) : Decidable (outsideBorder inp) := by
  unfold outsideBorder; infer_instance

/-- Modelled from the spec: `outside_area` (common/src/world.rs is not
among the sources) — outside the entity-type-specific latitude band,
modelled as exceeding an optional maximal `y`. -/
def outsideAreaP (inp : BorderInput) : Prop :=
  match inp.areaYMax with
  | none => False
  | some m => m < inp.position.2

instance outsideAreaP.instDec (inp : BorderInput) : Decidable (outsideAreaP inp) := by
  unfold outsideAreaP
  rcases inp.areaYMax with _ | m <;> infer_instance

/-- Modelled from the spec: `clamp_y_to_area_border`. -/
def clampYToAreaBorder (areaYMax : Option ℚ) (y : ℚ) : ℚ :=
  match areaYMax with
  | none => y
  | some m => min y m

/-- Modelled from the spec: `area_border_normal` for a maximal-`y` band —
the inward normal points in `−y`. -/
def areaBorderNormal : ℚ × ℚ := (0, -1)

/-- Embedded border snap: `position = position.normalize() * border_radius`,
with the normalization expressed as division by the supplied norm `len`. -/
def borderSnap1 (inp : BorderInput) : ℚ × ℚ :=
  if outsideBorder inp then
    ((inp.position.1 / inp.len) * inp.borderRadius,
     (inp.position.2 / inp.len) * inp.borderRadius)
  else inp.position

/-- Embedded position after both the border snap and the area clamp. -/
def borderSnapPos (inp : BorderInput) : ℚ × ℚ :=
  if outsideAreaP inp then
    ((borderSnap1 inp).1, clampYToAreaBorder inp.areaYMax (borderSnap1 inp).2)
  else borderSnap1 inp

/-- Embedded inward normal: the area normal when outside the band
(overwriting the border normal, as in the source), else the inward border
normal `−position.normalize()`. -/
def borderNormal (inp : BorderInput) : ℚ × ℚ :=
  if outsideAreaP inp then areaBorderNormal
  else if outsideBorder inp then
    (-(inp.position.1 / inp.len), -(inp.position.2 / inp.len))
  else (0, 0)

/-- Embedded velocity assignment:
`Velocity::from_mps(10.0 * normal.dot(direction.to_vec()))`. -/
def borderVel (inp : BorderInput) : ℚ :=
  10 * ((borderNormal inp).1 * inp.direction.1 + (borderNormal inp).2 * inp.direction.2)

/-- Embedded border fragment of `World::physics` (world_physics.rs lines
320–351), with `Entity::kill_in` spec-modelled as `killIn`: outside the
border or the latitude band, repair is lost, the position is snapped, the
velocity is replaced by the normal-projected 10 m/s, and non-boats — or
boats whose 1-second countdown has elapsed — are removed with
`DeathReason::Border`. -/
def borderStep (inp : BorderInput) : BorderOutput :=
  if outsideBorder inp ∨ outsideAreaP inp then
    if inp.kind ≠ EntityKind.Boat then
      ⟨some DeathReason.Border, borderSnapPos inp, borderVel inp, false, inp.killCountdown⟩
    else
      match killIn inp.killCountdown inp.delta (ticksFromSecs 1) with
      | (k, true) => ⟨some DeathReason.Border, borderSnapPos inp, borderVel inp, false, k⟩
      | (k, false) => ⟨none, borderSnapPos inp, borderVel inp, false, k⟩
  else ⟨none, inp.position, inp.velocity, true, inp.killCountdown⟩

/-- C5 counterexample: a boat at (10, 0) against world radius 5, heading
tangentially (direction (0, 1)).  The inward normal is (−1, 0); "velocity
replaced by 10 m/s along the inward normal" would give speed 10, but the
code sets the scalar velocity to `10 · (normal · direction) = 0`. -/
theorem border_velocity_not_10_normal :
    (borderStep
        ⟨EntityKind.Boat, (10, 0), 10, (0, 1), 3, none, 1, 5, none⟩).velocity = 0 ∧
    (0 : ℚ) ≠ 10 := by
  constructor
  · have hob : outsideBorder ⟨EntityKind.Boat, (10, 0), 10, (0, 1), 3, none, 1, 5, none⟩ := by
      unfold outsideBorder; norm_num
    have hoa : ¬ outsideAreaP ⟨EntityKind.Boat, (10, 0), 10, (0, 1), 3, none, 1, 5, none⟩ := by
      unfold outsideAreaP; simp
    unfold borderStep
    rw [if_pos (Or.inl hob), if_neg (not_not.2 rfl)]
    have hkill : killIn none 1 (ticksFromSecs 1) = (some 9, false) := by
      have h10 : ticksFromSecs 1 = 10 := by
        have hf : ⌊(1 : ℚ) * 10⌋ = 10 := by norm_num
        unfold ticksFromSecs
        rw [hf]
        rfl
      rw [h10]
      unfold killIn
      norm_num
    rw [hkill]
    show borderVel _ = 0
    unfold borderVel borderNormal
    rw [if_neg hoa, if_pos hob]
    norm_num
  · norm_num

lemma mul_self_le_mul_self' {a b : ℚ} (ha : 0 ≤ a) (hab : a ≤ b) : a * a ≤ b * b :=
  mul_le_mul hab hab ha (le_trans ha hab)

lemma borderSnap1_sq (inp : BorderInput)
    (hlen : inp.len * inp.len =
      inp.position.1 * inp.position.1 + inp.position.2 * inp.position.2)
    (hlenpos : 0 < inp.len) (hob : outsideBorder inp) :
    (borderSnap1 inp).1 * (borderSnap1 inp).1 + (borderSnap1 inp).2 * (borderSnap1 inp).2 =
      inp.borderRadius * inp.borderRadius := by
  unfold borderSnap1
  rw [if_pos hob]
  have hne : inp.len ≠ 0 := ne_of_gt hlenpos
  field_simp
  nlinarith [hlen]

lemma borderSnapPos_sq_le (inp : BorderInput)
    (hlen : inp.len * inp.len =
      inp.position.1 * inp.position.1 + inp.position.2 * inp.position.2)
    (hlenpos : 0 < inp.len) (hr : 0 ≤ inp.borderRadius)
    (hymax : ∀ m, inp.areaYMax = some m → 0 ≤ m) :
    (borderSnapPos inp).1 * (borderSnapPos inp).1 +
      (borderSnapPos inp).2 * (borderSnapPos inp).2 ≤
      inp.borderRadius * inp.borderRadius := by
  have hsnap1 : (borderSnap1 inp).1 * (borderSnap1 inp).1 +
      (borderSnap1 inp).2 * (borderSnap1 inp).2 ≤ inp.borderRadius * inp.borderRadius := by
    by_cases hob : outsideBorder inp
    · exact le_of_eq (borderSnap1_sq inp hlen hlenpos hob)
    · unfold borderSnap1
      rw [if_neg hob]
      exact not_lt.1 hob
  unfold borderSnapPos
  by_cases hoa : outsideAreaP inp
  · rw [if_pos hoa]
    rcases hm : inp.areaYMax with _ | m
    · unfold outsideAreaP at hoa
      rw [hm] at hoa
      exact absurd hoa (by simp)
    · have hm0 : 0 ≤ m := hymax m hm
      have hy : m < inp.position.2 := by
        unfold outsideAreaP at hoa
        rw [hm] at hoa
        exact hoa
      have hy2 : 0 ≤ (borderSnap1 inp).2 := by
        unfold borderSnap1
        by_cases hob : outsideBorder inp
        · rw [if_pos hob]
          have : 0 ≤ inp.position.2 := le_trans hm0 (le_of_lt hy)
          positivity
        · rw [if_neg hob]
          exact le_trans hm0 (le_of_lt hy)
      have hclamp : clampYToAreaBorder (some m) (borderSnap1 inp).2 *
          clampYToAreaBorder (some m) (borderSnap1 inp).2 ≤
          (borderSnap1 inp).2 * (borderSnap1 inp).2 := by
        show min (borderSnap1 inp).2 m * min (borderSnap1 inp).2 m ≤ _
        exact mul_self_le_mul_self' (le_min hy2 hm0) (min_le_left _ _)
      show (borderSnap1 inp).1 * (borderSnap1 inp).1 +
          clampYToAreaBorder (some m) (borderSnap1 inp).2 *
            clampYToAreaBorder (some m) (borderSnap1 inp).2 ≤
          inp.borderRadius * inp.borderRadius
      linarith [hclamp, hsnap1]
  · rw [if_neg hoa]
    exact hsnap1

/-- C5 (amended).  Border behavior of one physics tick: after the border
fragment, no surviving entity's position-norm squared exceeds
`world_radius²` (with the supplied norm and a nonnegative latitude bound);
an entity outside the border or its latitude band loses repair
eligibility, has its position snapped to the boundary and its scalar
velocity replaced by `10 · (inward normal · direction)` m/s (the
projection of the inward normal onto the heading, not a full 10 m/s); it
is removed with `DeathReason::Border` immediately if it is not a boat,
while a boat dies when the spec-modelled 1-second countdown elapses.
Entities inside both bounds are untouched. -/
theorem border_invariant (inp : BorderInput)
    (hlen : inp.len * inp.len =
      inp.position.1 * inp.position.1 + inp.position.2 * inp.position.2)
    (hlenpos : 0 < inp.len) (hr : 0 ≤ inp.borderRadius)
    (hymax : ∀ m, inp.areaYMax = some m → 0 ≤ m) :
    ((borderStep inp).fate = none →
      (borderStep inp).position.1 * (borderStep inp).position.1 +
        (borderStep inp).position.2 * (borderStep inp).position.2 ≤
        inp.borderRadius * inp.borderRadius) ∧
    ((outsideBorder inp ∨ outsideAreaP inp) → inp.kind ≠ EntityKind.Boat →
      borderStep inp =
        ⟨some DeathReason.Border, borderSnapPos inp, borderVel inp, false,
          inp.killCountdown⟩) ∧
    ((outsideBorder inp ∨ outsideAreaP inp) → inp.kind = EntityKind.Boat →
      (borderStep inp).position = borderSnapPos inp ∧
      (borderStep inp).velocity = borderVel inp ∧
      (borderStep inp).repairEligible = false ∧
      (borderStep inp).fate =
        (if inp.killCountdown.getD (ticksFromSecs 1) ≤ inp.delta
         then some DeathReason.Border else none)) ∧
    (¬(outsideBorder inp ∨ outsideAreaP inp) →
      borderStep inp = ⟨none, inp.position, inp.velocity, true, inp.killCountdown⟩) := by
  have hsnap := borderSnapPos_sq_le inp hlen hlenpos hr hymax
  by_cases hout : outsideBorder inp ∨ outsideAreaP inp
  · by_cases hk : inp.kind = EntityKind.Boat
    · have hstep : borderStep inp =
          if inp.killCountdown.getD (ticksFromSecs 1) ≤ inp.delta then
            ⟨some DeathReason.Border, borderSnapPos inp, borderVel inp, false, some 0⟩
          else
            ⟨none, borderSnapPos inp, borderVel inp, false,
              some (inp.killCountdown.getD (ticksFromSecs 1) - inp.delta)⟩ := by
        unfold borderStep killIn
        rw [if_pos hout, if_neg (not_not.2 hk)]
        by_cases hd : inp.killCountdown.getD (ticksFromSecs 1) ≤ inp.delta
        · rw [if_pos hd, if_pos hd]
        · rw [if_neg hd, if_neg hd]
      by_cases hd : inp.killCountdown.getD (ticksFromSecs 1) ≤ inp.delta
      · rw [hstep, if_pos hd]
        exact ⟨fun hcon => by simp at hcon, fun _ hcon => absurd hk hcon,
          fun _ _ => ⟨rfl, rfl, rfl, by rw [if_pos hd]⟩, fun hcon => absurd hout hcon⟩
      · rw [hstep, if_neg hd]
        exact ⟨fun _ => hsnap, fun _ hcon => absurd hk hcon,
          fun _ _ => ⟨rfl, rfl, rfl, by rw [if_neg hd]⟩, fun hcon => absurd hout hcon⟩
    · have hstep : borderStep inp =
          ⟨some DeathReason.Border, borderSnapPos inp, borderVel inp, false,
            inp.killCountdown⟩ := by
        unfold borderStep
        rw [if_pos hout, if_pos hk]
      rw [hstep]
      exact ⟨fun hcon => by simp at hcon, fun _ _ => rfl,
        fun _ hcon => absurd hcon hk, fun hcon => absurd hout hcon⟩
  · have hstep : borderStep inp =
        ⟨none, inp.position, inp.velocity, true, inp.killCountdown⟩ := by
      unfold borderStep
      rw [if_neg hout]
    rw [hstep]
    refine ⟨fun _ => ?_, fun hcon => absurd hcon hout, fun hcon => absurd hcon hout,
      fun _ => rfl⟩
    have hob : ¬ outsideBorder inp := fun h => hout (Or.inl h)
    exact not_lt.1 hob

/-- C5 witness: an entity safely inside the border keeps its position,
whose norm stays within the radius (position (3, 4), norm 5, radius 6). -/
theorem border_invariant_witness :
    (borderStep ⟨EntityKind.Boat, (3, 4), 5, (1, 0), 2, none, 1, 6, none⟩).fate = none ∧
    (borderStep ⟨EntityKind.Boat, (3, 4), 5, (1, 0), 2, none, 1, 6, none⟩).position.1 *
        (borderStep ⟨EntityKind.Boat, (3, 4), 5, (1, 0), 2, none, 1, 6, none⟩).position.1 +
      (borderStep ⟨EntityKind.Boat, (3, 4), 5, (1, 0), 2, none, 1, 6, none⟩).position.2 *
        (borderStep ⟨EntityKind.Boat, (3, 4), 5, (1, 0), 2, none, 1, 6, none⟩).position.2 ≤
      (6 : ℚ) * 6 := by
  have hb := border_invariant ⟨EntityKind.Boat, (3, 4), 5, (1, 0), 2, none, 1, 6, none⟩
    (by norm_num) (by norm_num) (by norm_num) (fun m hm => by simp at hm)
  have hout : ¬(outsideBorder ⟨EntityKind.Boat, (3, 4), 5, (1, 0), 2, none, 1, 6, none⟩ ∨
      outsideAreaP ⟨EntityKind.Boat, (3, 4), 5, (1, 0), 2, none, 1, 6, none⟩) := by
    rintro (h | h)
    · unfold outsideBorder at h; norm_num at h
    · unfold outsideAreaP at h; simp at h
  have hstep := hb.2.2.2 hout
  rw [hstep]
  exact ⟨rfl, by norm_num⟩

/-- C4 witness: a concrete distinct-key multiset processed from both
enqueue orders, and a concrete Guidance queue whose sorted last filtered
element dominates the signals. -/
theorem mutation_order_independent_witness :
    ([Mutation.Remove DeathReason.Border, Mutation.Score 3].map mutationKey).Nodup ∧
    processMutations [] 1 exampleState [Mutation.Remove DeathReason.Border, Mutation.Score 3] =
      processMutations [] 1 exampleState [Mutation.Score 3, Mutation.Remove DeathReason.Border] ∧
    Mutation.signalOf (Mutation.Guidance 0 0 1) ≤ Mutation.signalOf (Mutation.Guidance 7 0 2) := by
  refine ⟨by decide, ?_, ?_⟩
  · exact (mutation_order_independent.1 [] 1 exampleState _ _
      (List.Perm.swap _ _ _) (by decide)).2
  · exact mutation_order_independent.2
      [Mutation.Guidance 0 0 1, Mutation.Guidance 7 0 2] (Mutation.Guidance 7 0 2)
      (by decide) (Mutation.Guidance 0 0 1) (by decide) (by decide)

end Shipwreck
